import Mathlib

/-!
# Verification of the crypto-trader indicator and alert pipeline

A shallow embedding in Lean 4 of the technical-indicator library
(`indicators_module.js`), the timeframe alert generator
(`timeframes_module.js`) and the per-price-batch monitoring path
(`api.js`) of the crypto-trader application.

Modelling conventions:
* JavaScript numbers are embedded as exact rationals (`ℚ`); `x.toFixed(n)`
  followed by `parseFloat` is embedded as exact half-up rounding to `n`
  decimal places.
* A JS array slot holding `null`/`undefined` is embedded as `Option ℚ`
  (`none` = no value); where NaN can flow (the ADX computation) a dedicated
  three-valued type `JsVal` is used.
* JS strict comparisons `x > c` / `x < c` against `null`/`undefined`
  evaluate to `false` for the values that actually occur here (`undefined`
  gives NaN comparisons, `null` coerces to `0` which is also below every
  positive threshold used), with the single exception of the RSI guard
  `rsi < 30`, where a `null` RSI coerces to `0` and the guard is `true`;
  that exception is embedded explicitly (`jsNullLt`).
-/

/-- Embeds `parseFloat(x.toFixed(2))` on a rational: round half-up to 2 decimals. -/
def round2 (x : ℚ) : ℚ := (⌊x * 100 + 1/2⌋ : ℤ) / 100

/-- Embeds `parseFloat(x.toFixed(4))` on a rational: round half-up to 4 decimals. -/
def round4 (x : ℚ) : ℚ := (⌊x * 10000 + 1/2⌋ : ℤ) / 10000

/-- Embeds `Math.min(...l)` — `none` when the list is empty (JS yields `Infinity`). -/
def listMin : List ℚ → Option ℚ
  | [] => none
  | x :: xs => some (xs.foldl min x)

/-- Embeds `Math.max(...l)` — `none` when the list is empty (JS yields `-Infinity`). -/
def listMax : List ℚ → Option ℚ
  | [] => none
  | x :: xs => some (xs.foldl max x)

/-- JS `x || d` for a possibly-absent number `x`: `undefined` and `0` are
falsy, any other number is returned unchanged. -/
def jsOrDefault (x : Option ℚ) (d : ℚ) : ℚ :=
  match x with
  | none => d
  | some v => if v = 0 then d else v

/-- JS `null < c` coerces `null` to `0` (used for the `rsi < 30` guard when
`calculateRSI` returned `null`). -/
def jsNullLt (x : Option ℚ) (c : ℚ) : Bool :=
  match x with
  | none => decide ((0 : ℚ) < c)
  | some v => decide (v < c)

/-- JS `null > c` coerces `null` to `0` (used for the `rsi > 70` guard). -/
def jsNullGt (x : Option ℚ) (c : ℚ) : Bool :=
  match x with
  | none => decide (c < (0 : ℚ))
  | some v => decide (c < v)

/-- JS `x > c` where `x` may be `null`/`undefined`/absent: for the
thresholds used here (`c > 0`) all absent values compare `false`. -/
def jsGtThreshold (x : Option ℚ) (c : ℚ) : Bool :=
  match x with
  | none => false
  | some v => decide (c < v)

/-- One OHLCV candle.  The `timestamp` field is never read by the embedded
computations and is omitted.  `opn` embeds the JS field `open` (a reserved
word in Lean). -/
structure Candle where
  opn : ℚ
  high : ℚ
  low : ℚ
  close : ℚ
  volume : ℚ
  deriving DecidableEq, Repr, Inhabited

/-!
## `calculateRSI` (indicators_module.js, lines 20–78)
-/

/-- Wilder smoothing loop: `avg = (avg*(period-1) + x)/period` folded over
the remaining gains/losses. -/
def wilderAvg (p : ℚ) (seed : ℚ) (xs : List ℚ) : ℚ :=
  xs.foldl (fun a x => (a * (p - 1) + x) / p) seed

/-- The consecutive differences `prices[i] - prices[i-1]`. -/
def priceChanges (prices : List ℚ) : List ℚ :=
  List.zipWith (fun a b => b - a) prices prices.tail

/-- The gains list of `calculateRSI` (`change > 0 ? change : 0`). -/
def rsiGains (changes : List ℚ) : List ℚ :=
  changes.map fun c => if 0 < c then c else 0

/-- The losses list of `calculateRSI` (`change < 0 ? Math.abs(change) : 0`). -/
def rsiLosses (changes : List ℚ) : List ℚ :=
  changes.map fun c => if c < 0 then |c| else 0

/-- Embeds `calculateRSI(prices, period)`: sentinel `none` when
`prices.length < period + 1`, explicit 50/100/0 degenerate branches, then
Wilder-smoothed RSI rounded to 2 decimals. -/
def calculateRSI (prices : List ℚ) (period : ℕ) : Option ℚ :=
  if prices.length < period + 1 then none
  else
    let changes := priceChanges prices
    if changes.all fun c => decide (c = 0) then some 50
    else
      let gains := rsiGains changes
      let losses := rsiLosses changes
      if losses.all fun c => decide (c = 0) then some 100
      else if gains.all fun c => decide (c = 0) then some 0
      else
        let avgGain := wilderAvg period ((gains.take period).sum / period) (gains.drop period)
        let avgLoss := wilderAvg period ((losses.take period).sum / period) (losses.drop period)
        if avgLoss = 0 then some 100
        else some (round2 (100 - 100 / (1 + avgGain / avgLoss)))

/-!
## `calculateSMA` / `calculateEMA` (indicators_module.js, lines 86–137)

Both are stated for `1 ≤ period` (the JS loop index `period - 1` is a
non-negative integer for every period the program uses).
-/

/-- Embeds `calculateSMA(prices, period)`: `[]` when too short, otherwise
`period-1` leading `null`s followed by the rounded window means. -/
def calculateSMA (prices : List ℚ) (period : ℕ) : List (Option ℚ) :=
  if prices.length < period then []
  else
    List.replicate (period - 1) none ++
      (List.range (prices.length - period + 1)).map fun k =>
        some (round2 (((prices.drop k).take period).sum / period))

/-- The EMA recurrence: each step reads back the previously *pushed*
(rounded) value, `v = round2 ((p - prev) * m + prev)`. -/
def emaAux (m : ℚ) (prev : ℚ) : List ℚ → List ℚ
  | [] => []
  | p :: ps =>
    let v := round2 ((p - prev) * m + prev)
    v :: emaAux m v ps

/-- Embeds `calculateEMA(prices, period)`: seeded with the *unrounded* SMA of the
first `period` prices, then exponentially smoothed with multiplier
`2/(period+1)`, each subsequent value rounded to 2 decimals; `period-1`
leading `null`s. -/
def calculateEMA (prices : List ℚ) (period : ℕ) : List (Option ℚ) :=
  if prices.length < period then []
  else
    let m := 2 / ((period : ℚ) + 1)
    let smaFirst := (prices.take period).sum / period
    List.replicate (period - 1) none ++
      (some smaFirst :: (emaAux m smaFirst (prices.drop period)).map some)

/-!
## `calculateMACD` (indicators_module.js, lines 147–189)
-/

structure MACDResult where
  line : List (Option ℚ)
  signal : List (Option ℚ)
  histogram : List (Option ℚ)
  deriving Repr

/-- Embeds `calculateMACD(prices, fast, slow, signal)`. Array reads past the end
(`undefined` in JS) are embedded with `List.getD _ _ none`. -/
def calculateMACD (prices : List ℚ) (fast slow signal : ℕ) : MACDResult :=
  if prices.length < slow + signal then ⟨[], [], []⟩
  else
    let fastE := calculateEMA prices fast
    let slowE := calculateEMA prices slow
    let macdLine := (List.range prices.length).map fun i =>
      match fastE.getD i none, slowE.getD i none with
      | some a, some b => some (round2 (a - b))
      | _, _ => none
    let validMacd := macdLine.filterMap id
    let signalE := calculateEMA validMacd signal
    let signalLine := List.replicate (macdLine.length - validMacd.length) none ++ signalE
    let histogram := (List.range macdLine.length).map fun i =>
      match macdLine.getD i none, signalLine.getD i none with
      | some a, some b => some (round2 (a - b))
      | _, _ => none
    ⟨macdLine, signalLine, histogram⟩

/-!
## `calculateBollingerBands` (indicators_module.js, lines 198–236)

`Math.sqrt` has no exact rational counterpart; the band computation is
parametrised by the square-root function `sqrtF`.  No claim in this
development depends on a computed band value (only on the guard), so the
parameter is universally quantified where the function appears.
-/

structure BollingerResult where
  upper : List (Option ℚ)
  middle : List (Option ℚ)
  lower : List (Option ℚ)

/-- Embeds `calculateBollingerBands(prices, period, stdDev)`. -/
def calculateBollingerBands (sqrtF : ℚ → ℚ) (prices : List ℚ) (period : ℕ)
    (stdDev : ℚ) : BollingerResult :=
  if prices.length < period then ⟨[], [], []⟩
  else
    let sma := calculateSMA prices period
    let bands := (List.range prices.length).map fun i =>
      if i + 1 < period then (none, none)
      else
        let slice := (prices.drop (i + 1 - period)).take period
        let mean := slice.sum / (period : ℚ)
        let variance := (slice.map fun p => (p - mean) ^ 2).sum / (period : ℚ)
        let sd := sqrtF variance
        match sma.getD i none with
        | some m => (some (round2 (m + sd * stdDev)), some (round2 (m - sd * stdDev)))
        | none => (none, none)
    ⟨bands.map Prod.fst, sma, bands.map Prod.snd⟩

/-!
## `analyzeVolume` (indicators_module.js, lines 244–278)
-/

inductive VolTrend where
  | increasing | decreasing | neutral
  deriving DecidableEq, Repr

structure VolumeAnalysis where
  averageVolume : Option ℚ
  volumeChange : Option ℚ
  isVolumeHigh : Bool
  trend : VolTrend
  deriving Repr

/-- Embeds `analyzeVolume(volumes, period)`.  When every recent volume is zero the
JS code produces NaN for `volumeChange` (division by a zero average); the
embedding yields `some 0`, which compares identically (`false`) against all
thresholds used by alert rules. -/
def analyzeVolume (volumes : List ℚ) (period : ℕ) : VolumeAnalysis :=
  if volumes.length < period then ⟨none, none, false, .neutral⟩
  else
    let n := volumes.length
    let recent := volumes.drop (n - period)
    let averageVolume := recent.sum / period
    let lastVolume := volumes.getLastD 0
    let volumeChange := (lastVolume - averageVolume) / averageVolume * 100
    let last3 := (volumes.drop (n - 3)).sum / 3
    let prev3 := ((volumes.drop (n - 6)).take 3).sum / 3
    let trend :=
      if prev3 * 1.2 < last3 then VolTrend.increasing
      else if last3 < prev3 * 0.8 then VolTrend.decreasing
      else VolTrend.neutral
    ⟨some (round2 averageVolume), some (round2 volumeChange),
      decide (50 < volumeChange), trend⟩

/-!
## `findSupportResistanceLevels` / `groupLevels`
(indicators_module.js, lines 286–371)
-/

/-- A raw local extremum: the candle's price and its index. -/
structure Level where
  price : ℚ
  idx : ℕ
  deriving DecidableEq, Repr

/-- A cluster of nearby extrema: running weighted-average price and touch
count. -/
structure LevelGroup where
  price : ℚ
  strength : ℕ
  deriving DecidableEq, Repr

/-- The read `l.getD i default`, the candle-array read used by the extremum scan
(all reads are in bounds there). -/
def nthCandle (l : List Candle) (i : ℕ) : Candle := l.getD i default

/-- The support-collection loop: `for (i = 5; i < prices.length - 5; i++)`
collects `prices[i].low` when it is strictly below the lows at
`i-1, i-2, i+1, i+2`. -/
def collectSupports (candles : List Candle) : List Level :=
  (List.range candles.length).filterMap fun i =>
    if 5 ≤ i ∧ i + 5 < candles.length ∧
        (nthCandle candles i).low < (nthCandle candles (i - 1)).low ∧
        (nthCandle candles i).low < (nthCandle candles (i - 2)).low ∧
        (nthCandle candles i).low < (nthCandle candles (i + 1)).low ∧
        (nthCandle candles i).low < (nthCandle candles (i + 2)).low then
      some ⟨(nthCandle candles i).low, i⟩
    else none

/-- The resistance-collection loop (highs, strictly above the four
neighbours). -/
def collectResistances (candles : List Candle) : List Level :=
  (List.range candles.length).filterMap fun i =>
    if 5 ≤ i ∧ i + 5 < candles.length ∧
        (nthCandle candles (i - 1)).high < (nthCandle candles i).high ∧
        (nthCandle candles (i - 2)).high < (nthCandle candles i).high ∧
        (nthCandle candles (i + 1)).high < (nthCandle candles i).high ∧
        (nthCandle candles (i + 2)).high < (nthCandle candles i).high then
      some ⟨(nthCandle candles i).high, i⟩
    else none

/-- One step of the greedy clustering: scan the existing groups in order and
merge into the first one whose running weighted-average price is within
0.5% relative distance; otherwise append a new group of strength 1. -/
def addToGroups : List LevelGroup → ℚ → List LevelGroup
  | [], p => [⟨p, 1⟩]
  | g :: gs, p =>
    if |p - g.price| / g.price < 5/1000 then
      ⟨(g.price * g.strength + p) / ((g.strength : ℚ) + 1), g.strength + 1⟩ :: gs
    else
      g :: addToGroups gs p

/-- Embeds `groupLevels(levels)`: fold the points in arrival order through the
greedy merge step. -/
def groupLevels (levels : List Level) : List LevelGroup :=
  levels.foldl (fun acc l => addToGroups acc l.price) []

/-- Embeds `sort((a, b) => b.strength - a.strength)`: stable sort by strength
descending. -/
def sortByStrength (groups : List LevelGroup) : List LevelGroup :=
  groups.insertionSort fun a b => b.strength ≤ a.strength

structure SRLevels where
  support : List ℚ
  resistance : List ℚ
  deriving DecidableEq, Repr

/-- Embeds `findSupportResistanceLevels(prices, lookback)`: guard
(`length < lookback` or falsy `prices[0].high`), collect extrema, cluster,
rank by strength and return the top 3 per side rounded to 2 decimals. -/
def findSupportResistanceLevels (candles : List Candle) (lookback : ℕ) : SRLevels :=
  match candles with
  | [] => ⟨[], []⟩
  | c0 :: _ =>
    if candles.length < lookback ∨ c0.high = 0 then ⟨[], []⟩
    else
      ⟨((sortByStrength (groupLevels (collectSupports candles))).take 3).map
          fun g => round2 g.price,
        ((sortByStrength (groupLevels (collectResistances candles))).take 3).map
          fun g => round2 g.price⟩

/-!
## `calculateATR` (indicators_module.js, lines 404–439)
-/

/-- The true range `max(high-low, |high-prevClose|, |low-prevClose|)`. -/
def trueRange (prev cur : Candle) : ℚ :=
  max (cur.high - cur.low) (max |cur.high - prev.close| |cur.low - prev.close|)

/-- ATR smoothing: the accumulator stays unrounded, each pushed value is
rounded to 4 decimals. -/
def atrAux (p : ℚ) (acc : ℚ) : List ℚ → List ℚ
  | [] => []
  | tr :: rest =>
    let acc' := (acc * (p - 1) + tr) / p
    round4 acc' :: atrAux p acc' rest

/-- Embeds `calculateATR(prices, period)`: seed is the *unrounded* plain mean of
the first `period` true ranges; subsequent values Wilder-smoothed and
rounded to 4 decimals; `period` leading `null`s. -/
def calculateATR (candles : List Candle) (period : ℕ) : List (Option ℚ) :=
  match candles with
  | [] => []
  | c0 :: _ =>
    if candles.length < period + 1 ∨ c0.high = 0 then []
    else
      let trs := List.zipWith trueRange candles candles.tail
      let seed := (trs.take period).sum / (period : ℚ)
      List.replicate period none ++
        (some seed :: (atrAux period seed (trs.drop period)).map some)

/-!
## `calculateADX` (indicators_module.js, lines 447–534)

The DI/DX divisions can produce NaN in JS (`0/0` when the smoothed true
range, or the DI sum, is zero), and that NaN flows into the returned
arrays.  Output slots are therefore embedded with the three-valued `JsVal`:
`null` padding, a NaN, or an actual number.
-/

inductive JsVal where
  | null
  | nan
  | num (q : ℚ)
  deriving DecidableEq, Repr

/-- The `+DM` value `upMove > downMove && upMove > 0 ? upMove : 0`. -/
def plusDMOf (prev cur : Candle) : ℚ :=
  let u := cur.high - prev.high
  let d := prev.low - cur.low
  if d < u ∧ 0 < u then u else 0

/-- The `-DM` value `downMove > upMove && downMove > 0 ? downMove : 0`. -/
def minusDMOf (prev cur : Candle) : ℚ :=
  let u := cur.high - prev.high
  let d := prev.low - cur.low
  if u < d ∧ 0 < d then d else 0

/-- One smoothing update of `(smoothedTR, smoothedPlusDM, smoothedMinusDM)`:
`s' = s - s/period + x`. -/
def adxSmoothStep (p : ℚ) (s x : ℚ × ℚ × ℚ) : ℚ × ℚ × ℚ :=
  (s.1 - s.1 / p + x.1, s.2.1 - s.2.1 / p + x.2.1, s.2.2 - s.2.2 / p + x.2.2)

/-- Per-state `(plusDI, minusDI, DX)` as pushed by the loop: DI values
rounded to 2 decimals; `none` is NaN (`0/0`).  DX is computed from the
*unrounded* DI values. -/
def adxDIDX (s : ℚ × ℚ × ℚ) : Option ℚ × Option ℚ × Option ℚ :=
  if s.1 = 0 then (none, none, none)
  else
    let p := s.2.1 / s.1 * 100
    let m := s.2.2 / s.1 * 100
    (some (round2 p), some (round2 m),
      if p + m = 0 then none else some (round2 (|(p - m) / (p + m)| * 100)))

/-- NaN-propagating sum of a list of JS numbers. -/
def jsSum : List (Option ℚ) → Option ℚ
  | [] => some 0
  | none :: _ => none
  | some q :: rest => (jsSum rest).map (q + ·)

/-- ADX smoothing over the remaining DX values: unrounded NaN-propagating
accumulator, each pushed value rounded to 2 decimals. -/
def adxAux (p : ℚ) (acc : Option ℚ) : List (Option ℚ) → List (Option ℚ)
  | [] => []
  | dx :: rest =>
    let acc' := match acc, dx with
      | some a, some d => some ((a * (p - 1) + d) / p)
      | _, _ => none
    acc'.map round2 :: adxAux p acc' rest

/-- JS `l.slice(0, e)` where `e` may be negative (counts from the end). -/
def jsSliceTo (l : List JsVal) (e : ℤ) : List JsVal :=
  if e < 0 then l.take ((l.length : ℤ) + e).toNat else l.take e.toNat

/-- NaN-or-number to output slot. -/
def toJsVal : Option ℚ → JsVal
  | none => JsVal.nan
  | some q => JsVal.num q

structure ADXResult where
  adx : List JsVal
  plusDI : List JsVal
  minusDI : List JsVal
  deriving DecidableEq, Repr

/-- Embeds `calculateADX(prices, period)`. -/
def calculateADX (candles : List Candle) (period : ℕ) : ADXResult :=
  match candles with
  | [] => ⟨[], [], []⟩
  | c0 :: _ =>
    if candles.length < period * 2 ∨ c0.high = 0 then ⟨[], [], []⟩
    else
      let pairs := candles.zip candles.tail
      let trs := pairs.map fun pc => trueRange pc.1 pc.2
      let pdms := pairs.map fun pc => plusDMOf pc.1 pc.2
      let mdms := pairs.map fun pc => minusDMOf pc.1 pc.2
      let init : ℚ × ℚ × ℚ :=
        ((trs.take period).sum, (pdms.take period).sum, (mdms.take period).sum)
      let steps := (pairs.drop period).map fun pc =>
        (trueRange pc.1 pc.2, plusDMOf pc.1 pc.2, minusDMOf pc.1 pc.2)
      let states := (List.scanl (adxSmoothStep period) init steps).tail
      let dis := states.map adxDIDX
      let plusDIs := dis.map fun t => t.1
      let minusDIs := dis.map fun t => t.2.1
      let dxValues := dis.map fun t => t.2.2
      let adxSeed := (jsSum (dxValues.take period)).map (· / (period : ℚ))
      let adxValues := adxSeed.map round2 :: adxAux period adxSeed (dxValues.drop period)
      let adxOut := adxValues.map toJsVal
      let nullPad := List.replicate (candles.length - adxOut.length) JsVal.null
      ⟨nullPad ++ adxOut,
        jsSliceTo nullPad ((nullPad.length : ℤ) - plusDIs.length) ++ plusDIs.map toJsVal,
        jsSliceTo nullPad ((nullPad.length : ℤ) - minusDIs.length) ++ minusDIs.map toJsVal⟩

/-!
## `identifyCandlePatterns` (indicators_module.js, lines 541 onward)

Each 3-candle window can push several named patterns.  Only `significance`
and `position` are read downstream (the `pattern` name and description
strings feed free-text recommendations, outside the verified contract).
The bearish-Harami check mirrors the bullish one; its body lies in a
truncated region of the source and is modelled from the spec
("current candle's full range contained within prior candle's body,
opposite direction").
-/

structure PatternHit where
  significance : String
  position : ℕ
  deriving DecidableEq, Repr

/-- Bool substring test used for `significance.includes(...)`. -/
def charsContainPat (needle : List Char) : List Char → Bool
  | [] => needle.isEmpty
  | c :: rest => needle.isPrefixOf (c :: rest) || charsContainPat needle rest

/-- JS `hay.includes(needle)`. -/
def strIncludes (hay needle : String) : Bool :=
  charsContainPat needle.toList hay.toList

/-- The patterns pushed for window position `i` (candles `i-2, i-1, i`),
in source order. -/
def patternsAt (candles : List Candle) (i : ℕ) : List PatternHit :=
  let c2 := nthCandle candles (i - 1)
  let c3 := nthCandle candles i
  let c3Body := |c3.close - c3.opn|
  let c3Upper := c3.high - max c3.opn c3.close
  let c3Lower := min c3.opn c3.close - c3.low
  let range := c3.high - c3.low
  let dojiDen := if range = 0 then 1 else range
  (if c3Body / dojiDen < 1/10 then [⟨"neutral", i⟩] else []) ++
  (if c3.opn < c3.close ∧ c3Body * 2 < c3Lower ∧ c3Upper < c3Body * (1/2) then
      [⟨"bullish", i⟩] else []) ++
  (if c3.close < c3.opn ∧ c3Body * 2 < c3Upper ∧ c3Lower < c3Body * (1/2) then
      [⟨"bearish", i⟩] else []) ++
  (if c2.close < c2.opn ∧ c3.opn < c3.close ∧ c2.opn < c3.close ∧ c3.opn < c2.close then
      [⟨"bullish", i⟩] else []) ++
  (if c2.opn < c2.close ∧ c3.close < c3.opn ∧ c3.close < c2.opn ∧ c2.close < c3.opn then
      [⟨"bearish", i⟩] else []) ++
  (if c2.close < c2.opn ∧ c3.opn < c3.close ∧ c3.high < c2.opn ∧ c2.close < c3.low then
      [⟨"bullish", i⟩] else []) ++
  (if c2.opn < c2.close ∧ c3.close < c3.opn ∧ c3.high < c2.close ∧ c2.opn < c3.low then
      [⟨"bearish", i⟩] else [])

/-- Embeds `identifyCandlePatterns(candles)`: guard (`length < 3` or falsy
`candles[0].open`), then scan windows `i = 2 .. length-1`. -/
def identifyCandlePatterns (candles : List Candle) : List PatternHit :=
  match candles with
  | [] => []
  | c0 :: _ =>
    if candles.length < 3 ∨ c0.opn = 0 then []
    else (List.range candles.length).flatMap fun i =>
      if 2 ≤ i then patternsAt candles i else []

/-!
## The alert rule engine (`generateTechnicalAlerts`,
timeframes_module.js lines 328–632)

The engine is a pure function of the indicator snapshot.  The snapshot
carries exactly the fields the alert rules read; unread snapshot fields of
the source (`sma20`, `ema200`, `fibonacci`, `atr`, symbol/timeframe labels,
timestamps) are omitted, as are the alert fields that merely label or
timestamp the alert (`id`, `created_at`, `read`, `symbol`, `timeframe`)
and the free-text `recommendation` / `indicators` display strings.
-/

inductive AlertType where
  | buy | sell | monitoring
  deriving DecidableEq, Repr

inductive Confidence where
  | low | medium | high
  deriving DecidableEq, Repr

inductive MonType where
  | nearSupport | nearResistance | atypicalVolume | chartPattern | strongTrend
  deriving DecidableEq, Repr

structure Alert where
  type : AlertType
  price : ℚ
  confidence : Confidence
  support : Option ℚ
  resistance : Option ℚ
  stopLoss : Option ℚ
  target : Option ℚ
  monitoringType : Option MonType
  deriving DecidableEq, Repr

structure Snapshot where
  lastPrice : ℚ
  candles : List Candle
  rsi : Option ℚ
  ema50 : Option ℚ
  macdHistogram : Option ℚ
  bollUpper : Option ℚ
  bollLower : Option ℚ
  volumeChange : Option ℚ
  supports : List ℚ
  resistances : List ℚ
  adxValue : Option ℚ
  adxPlusDI : Option ℚ
  adxMinusDI : Option ℚ
  patterns : List PatternHit
  deriving Repr

structure AlertsResult where
  buy : List Alert
  sell : List Alert
  monitoring : List Alert
  deriving DecidableEq, Repr

/-- BUY MACD confirmation:
`macd.histogram > 0 || (macd.histogram < 0 && macd.histogram > macd.histogram - 1)`.
A `null`/`undefined` histogram fails both outer comparisons. -/
def confirmedByMACDBuy (h : Option ℚ) : Bool :=
  match h with
  | none => false
  | some x => decide (0 < x) || (decide (x < 0) && decide (x - 1 < x))

/-- SELL MACD confirmation:
`macd.histogram < 0 || (macd.histogram > 0 && macd.histogram < macd.histogram - 1)`. -/
def confirmedByMACDSell (h : Option ℚ) : Bool :=
  match h with
  | none => false
  | some x => decide (x < 0) || (decide (0 < x) && decide (x < x - 1))

/-- BUY Bollinger confirmation: `currentPrice <= bollinger.lower * 1.01`
(`false` when the band is `undefined`: NaN comparison in JS). -/
def confirmedByBollingerBuy (price : ℚ) (lower : Option ℚ) : Bool :=
  match lower with
  | none => false
  | some l => decide (price ≤ l * 1.01)

/-- SELL Bollinger confirmation: `currentPrice >= bollinger.upper * 0.99`. -/
def confirmedByBollingerSell (price : ℚ) (upper : Option ℚ) : Bool :=
  match upper with
  | none => false
  | some u => decide (u * 0.99 ≤ price)

/-- Volume confirmation: `volume.volumeChange > 20` (`null` coerces to `0`,
also `false`). -/
def confirmedByVolume (vc : Option ℚ) : Bool := jsGtThreshold vc 20

/-- The count `[a, b, c].filter(Boolean).length`. -/
def confirmationCount (a b c : Bool) : ℕ := ([a, b, c].filter id).length

/-- The mapping `count >= 2 ? HIGH : count >= 1 ? MEDIUM : LOW`. -/
def confidenceOfCount (n : ℕ) : Confidence :=
  if 2 ≤ n then .high else if 1 ≤ n then .medium else .low

/-- A `null` number used in arithmetic coerces to `0` (JS `30 - null`). -/
def jsNumOr0 : Option ℚ → ℚ
  | none => 0
  | some x => x

/-- The BUY alert pushed when `rsi < 30`. -/
def mkBuyAlert (s : Snapshot) : Alert :=
  let n := confirmationCount (confirmedByMACDBuy s.macdHistogram)
    (confirmedByBollingerBuy s.lastPrice s.bollLower)
    (confirmedByVolume s.volumeChange)
  { type := .buy
    price := s.lastPrice
    confidence := confidenceOfCount n
    support := some (jsOrDefault s.supports.head? (s.lastPrice * 0.95))
    resistance := some (jsOrDefault s.resistances.head? (s.lastPrice * 1.05))
    stopLoss := (listMin ((s.candles.drop (s.candles.length - 5)).map Candle.low)).map
      fun mn => mn * 0.99
    target := some (s.lastPrice * (1 + (30 - jsNumOr0 s.rsi) / 100))
    monitoringType := none }

/-- The SELL alert pushed when `rsi > 70`. -/
def mkSellAlert (s : Snapshot) : Alert :=
  let n := confirmationCount (confirmedByMACDSell s.macdHistogram)
    (confirmedByBollingerSell s.lastPrice s.bollUpper)
    (confirmedByVolume s.volumeChange)
  { type := .sell
    price := s.lastPrice
    confidence := confidenceOfCount n
    support := some (jsOrDefault s.supports.head? (s.lastPrice * 0.95))
    resistance := some (jsOrDefault s.resistances.head? (s.lastPrice * 1.05))
    stopLoss := (listMax ((s.candles.drop (s.candles.length - 5)).map Candle.high)).map
      fun mx => mx * 1.01
    target := some (s.lastPrice * (1 - (jsNumOr0 s.rsi - 70) / 100))
    monitoringType := none }

/-- A MONITORING alert of the timeframe path; its `levels` read the raw
`support[0]` / `resistance[0]` with no fallback. -/
def mkMonAlert (s : Snapshot) (t : MonType) (conf : Confidence) : Alert :=
  { type := .monitoring
    price := s.lastPrice
    confidence := conf
    support := s.supports.head?
    resistance := s.resistances.head?
    stopLoss := none
    target := none
    monitoringType := some t }

/-- Embeds `generateTechnicalAlerts` on an already-computed snapshot
(timeframes_module.js lines 337–627). -/
def generateTechnicalAlerts (s : Snapshot) : AlertsResult :=
  let buy := if jsNullLt s.rsi 30 then [mkBuyAlert s] else []
  let sell := if jsNullGt s.rsi 70 then [mkSellAlert s] else []
  let m1 := match s.supports.head? with
    | some s0 => if s.lastPrice ≤ s0 * 1.02 then [mkMonAlert s .nearSupport .medium] else []
    | none => []
  let m2 := match s.resistances.head? with
    | some r0 => if r0 * 0.98 ≤ s.lastPrice then [mkMonAlert s .nearResistance .medium] else []
    | none => []
  let m3 := if jsGtThreshold s.volumeChange 100 then [mkMonAlert s .atypicalVolume .medium] else []
  let m4 := match s.patterns with
    | [] => []
    | p0 :: _ =>
      match s.patterns.find? fun p => strIncludes p.significance ("strongly") ||
          decide ((s.candles.length : ℤ) - 2 ≤ (p0.position : ℤ)) with
      | some p => [mkMonAlert s .chartPattern
          (if strIncludes p.significance ("strongly") then .high else .medium)]
      | none => []
  let m5 := match s.adxValue with
    | some a => if 25 < a then
        [mkMonAlert s .strongTrend (if 35 < a then .high else .medium)] else []
    | none => []
  ⟨buy, sell, m1 ++ m2 ++ m3 ++ m4 ++ m5⟩

/-!
## The indicator aggregator (`calculateAllIndicators`,
timeframes_module.js lines 228–320)

The JS function throws (and its `catch` returns an error object) only when
the candle series is empty; indicator sub-computations that cannot produce
a value leave `null`/`undefined` fields in an otherwise normal snapshot.
Last-element reads `arr[arr.length - 1]` on possibly-empty arrays are
embedded with `getLast?`/`Option.join`.
-/

/-- The read `arr[arr.length - 1]` on a `List (Option ℚ)`: `undefined` when empty,
else the last slot. -/
def lastSlot (l : List (Option ℚ)) : Option ℚ := l.getLast?.join

/-- Last slot of a `JsVal` list, kept only when it is an actual number
(a trailing `null`/NaN/absent slot compares `false` against every positive
threshold downstream, like `none` does). -/
def lastNum (l : List JsVal) : Option ℚ :=
  match l.getLast? with
  | some (JsVal.num q) => some q
  | _ => none

/-- Embeds `calculateAllIndicators` restricted to the snapshot fields the alert
rules read. -/
def calculateAllIndicators (sqrtF : ℚ → ℚ) (candles : List Candle) :
    Except String Snapshot :=
  match candles with
  | [] => Except.error ("Sem dados historicos disponiveis")
  | c0 :: rest =>
    let closes := (c0 :: rest).map Candle.close
    let volumes := (c0 :: rest).map Candle.volume
    let n := (c0 :: rest).length
    let macd := calculateMACD closes 12 26 9
    let boll := calculateBollingerBands sqrtF closes 20 2
    let adx := calculateADX (c0 :: rest) 14
    Except.ok
      { lastPrice := ((c0 :: rest).getLastD c0).close
        candles := (c0 :: rest).drop (n - 10)
        rsi := calculateRSI closes 14
        ema50 := lastSlot (calculateEMA closes 50)
        macdHistogram := lastSlot macd.histogram
        bollUpper := lastSlot boll.upper
        bollLower := lastSlot boll.lower
        volumeChange := (analyzeVolume volumes 14).volumeChange
        supports := (findSupportResistanceLevels (c0 :: rest) 30).support
        resistances := (findSupportResistanceLevels (c0 :: rest) 30).resistance
        adxValue := lastNum adx.adx
        adxPlusDI := lastNum adx.plusDI
        adxMinusDI := lastNum adx.minusDI
        patterns := (identifyCandlePatterns (c0 :: rest)).filter
          fun p => decide (n - 3 ≤ p.position) }

/-- Embeds `generateTechnicalAlerts(symbol, timeframe)` end to end: compute the
snapshot from the candle series; the `catch` of an error outcome returns
the empty alert lists. -/
def generateAlertsFromCandles (sqrtF : ℚ → ℚ) (candles : List Candle) : AlertsResult :=
  match calculateAllIndicators sqrtF candles with
  | Except.error _ => ⟨[], [], []⟩
  | Except.ok s => generateTechnicalAlerts s

/-!
## The per-price-batch MONITORING path (`fetchAlerts`, api.js lines
774–846)

A single alert per symbol, with the first matching reason in priority
order: support proximity, resistance proximity, atypical volume, strong
trend — all guarded by the S/R lists not being both empty.
-/

/-- Support proximity: `0 <= (price - support[0]) / price * 100 < 3`. -/
def supportProximity (price : ℚ) (supports : List ℚ) : Bool :=
  match supports.head? with
  | none => false
  | some s0 =>
    let d := (price - s0) / price * 100
    decide (0 ≤ d) && decide (d < 3)

/-- Resistance proximity: `0 <= (resistance[0] - price) / price * 100 < 3`. -/
def resistanceProximity (price : ℚ) (resistances : List ℚ) : Bool :=
  match resistances.head? with
  | none => false
  | some r0 =>
    let d := (r0 - price) / price * 100
    decide (0 ≤ d) && decide (d < 3)

/-- The priority cascade assigning `monitoringType` in the api.js batch
path. -/
def apiMonitoringType (price : ℚ) (supports resistances : List ℚ)
    (volumeChange adxValue : Option ℚ) : Option MonType :=
  if supports = [] ∧ resistances = [] then none
  else if supportProximity price supports then some .nearSupport
  else if resistanceProximity price resistances then some .nearResistance
  else if jsGtThreshold volumeChange 50 then some .atypicalVolume
  else if jsGtThreshold adxValue 25 then some .strongTrend
  else none

/-- The MONITORING alerts pushed for one symbol by the api.js batch path
(zero or one). -/
def apiMonitoringAlerts (price : ℚ) (supports resistances : List ℚ)
    (volumeChange adxValue : Option ℚ) : List Alert :=
  match apiMonitoringType price supports resistances volumeChange adxValue with
  | none => []
  | some t =>
    [{ type := .monitoring
       price := price
       confidence := .medium
       support := some (jsOrDefault supports.head? (price * 0.95))
       resistance := some (jsOrDefault resistances.head? (price * 1.05))
       stopLoss := none
       target := none
       monitoringType := some t }]

/-!
## Specification-level predicates and concrete instances used by the
theorems
-/

/-- A value printable with exactly 2 decimal places. -/
def isDecimal2 (q : ℚ) : Prop := ∃ n : ℤ, q = n / 100

/-- A value printable with exactly 4 decimal places. -/
def isDecimal4 (q : ℚ) : Prop := ∃ n : ℤ, q = n / 10000

/-- A well-formed OHLC candle: `low ≤ high`, `close ≤ high`, `low ≤ close`. -/
def ValidCandle (c : Candle) : Prop :=
  c.low ≤ c.high ∧ c.close ≤ c.high ∧ c.low ≤ c.close

instance (c : Candle) : Decidable (ValidCandle c) := by
  unfold ValidCandle; infer_instance

/-- Specification reading of the support-point condition: the candle's low
is strictly lower than the lows of its 2 neighbours on each side. -/
def strictLocalMinLow (candles : List Candle) (i : ℕ) : Prop :=
  2 ≤ i ∧ i + 2 < candles.length ∧
  (nthCandle candles i).low < (nthCandle candles (i - 1)).low ∧
  (nthCandle candles i).low < (nthCandle candles (i - 2)).low ∧
  (nthCandle candles i).low < (nthCandle candles (i + 1)).low ∧
  (nthCandle candles i).low < (nthCandle candles (i + 2)).low

instance (candles : List Candle) (i : ℕ) : Decidable (strictLocalMinLow candles i) := by
  unfold strictLocalMinLow; infer_instance

/-- The reading of the ADX range claim on one output slot: `null` padding
or a number within `[0, 100]`. -/
def adxClaimSlot (v : JsVal) : Prop :=
  v = JsVal.null ∨ ∃ q, v = JsVal.num q ∧ 0 ≤ q ∧ q ≤ 100

/-- What actually holds of one ADX output slot: `null` padding, NaN, or a
number within `[0, 100]`. -/
def adxSlotOk (v : JsVal) : Prop :=
  v = JsVal.null ∨ v = JsVal.nan ∨ ∃ q, v = JsVal.num q ∧ 0 ≤ q ∧ q ≤ 100

/-- Four identical valid candles (`high 10, low 5, close 7`): zero
directional movement with positive true range. -/
def c6Candles : List Candle := List.replicate 4 ⟨7, 10, 5, 7, 1⟩

/-- Thirty candles whose only strict local low (index 3) sits outside the
scan window `[5, length-6]` of the collection loop. -/
def c7Candles : List Candle :=
  (List.range 30).map fun i => ⟨5, 20, if i = 3 then 1 else 10, 7, 1⟩

/-- The snapshot of the claimed BUY example: RSI 25, MACD histogram +0.5,
price at 1.005× the lower Bollinger band (100), volume change 30%. -/
def c1Snap : Snapshot :=
  { lastPrice := 201/2
    candles := [⟨100, 101, 100, 201/2, 1⟩]
    rsi := some 25
    ema50 := none
    macdHistogram := some (1/2)
    bollUpper := none
    bollLower := some 100
    volumeChange := some 30
    supports := []
    resistances := []
    adxValue := none
    adxPlusDI := none
    adxMinusDI := none
    patterns := [] }

/-- Invariant of the `(smoothedTR, smoothedPlusDM, smoothedMinusDM)` state:
both smoothed DMs are non-negative and bounded by the smoothed TR. -/
def DMInv (s : ℚ × ℚ × ℚ) : Prop :=
  0 ≤ s.2.1 ∧ s.2.1 ≤ s.1 ∧ 0 ≤ s.2.2 ∧ s.2.2 ≤ s.1

/-!
## Theorems
-/

theorem round2_isDecimal2 (x : ℚ) : isDecimal2 (round2 x) :=
  ⟨⌊x * 100 + 1/2⌋, rfl⟩

theorem round4_isDecimal4 (x : ℚ) : isDecimal4 (round4 x) :=
  ⟨⌊x * 10000 + 1/2⌋, rfl⟩

theorem round2_nonneg {x : ℚ} (hx : 0 ≤ x) : 0 ≤ round2 x := by
  unfold round2
  have h : (0 : ℤ) ≤ ⌊x * 100 + 1/2⌋ := by
    apply Int.le_floor.2
    push_cast
    linarith
  positivity

theorem round2_le_100 {x : ℚ} (hx : x ≤ 100) : round2 x ≤ 100 := by
  unfold round2
  have h : ⌊x * 100 + 1/2⌋ ≤ 10000 := by
    have : ⌊x * 100 + 1/2⌋ ≤ ⌊(10000 : ℚ) + 1/2⌋ := Int.floor_mono (by linarith)
    have h2 : ⌊(10000 : ℚ) + 1/2⌋ = 10000 := by norm_num
    omega
  have hcast : ((⌊x * 100 + 1/2⌋ : ℤ) : ℚ) ≤ 10000 := by exact_mod_cast h
  linarith

/-- C3: In the rule engine, the BUY MACD "confirmation" is true for every
non-null histogram except exactly 0 (because `x > x - 1` always holds),
and the SELL version is true exactly when the histogram is negative
(because `x < x - 1` never holds); neither tests momentum change. -/
theorem macd_confirmation_depends_only_on_sign (x : ℚ) :
    (confirmedByMACDBuy (some x) = true ↔ x ≠ 0) ∧
    (confirmedByMACDSell (some x) = true ↔ x < 0) := by
  constructor
  · simp only [confirmedByMACDBuy, Bool.or_eq_true, Bool.and_eq_true, decide_eq_true_eq]
    constructor
    · rintro (h | ⟨h, _⟩)
      · exact ne_of_gt h
      · exact ne_of_lt h
    · intro h
      rcases lt_or_gt_of_ne h with h' | h'
      · exact Or.inr ⟨h', by linarith⟩
      · exact Or.inl h'
  · simp only [confirmedByMACDSell, Bool.or_eq_true, Bool.and_eq_true, decide_eq_true_eq]
    constructor
    · rintro (h | ⟨_, h⟩)
      · exact h
      · linarith
    · intro h
      exact Or.inl h

/-- C10: One engine invocation emits at most one BUY and at most one SELL
alert, and never both: the BUY guard needs `rsi < 30` (true also for a
`null` RSI by JS coercion) while the SELL guard needs `rsi > 70`, and the
two cannot hold of the same RSI value. -/
theorem buy_sell_mutually_exclusive (s : Snapshot) :
    (generateTechnicalAlerts s).buy.length ≤ 1 ∧
    (generateTechnicalAlerts s).sell.length ≤ 1 ∧
    ((generateTechnicalAlerts s).buy = [] ∨ (generateTechnicalAlerts s).sell = []) := by
  rcases hr : s.rsi with _ | r
  · refine ⟨?_, ?_, Or.inr ?_⟩ <;>
      simp [generateTechnicalAlerts, jsNullLt, jsNullGt, hr] <;>
      split <;> simp
  · by_cases h30 : r < 30
    · have h70 : ¬(70 < r) := by linarith
      refine ⟨?_, ?_, Or.inr ?_⟩ <;>
        simp [generateTechnicalAlerts, jsNullLt, jsNullGt, hr, h30, h70]
    · refine ⟨?_, ?_, Or.inl ?_⟩ <;>
        simp [generateTechnicalAlerts, jsNullLt, jsNullGt, hr, h30] <;>
        split <;> simp

theorem emaAux_mem_isDecimal2 (m : ℚ) :
    ∀ (l : List ℚ) (prev : ℚ), ∀ x ∈ emaAux m prev l, isDecimal2 x := by
  intro l
  induction l with
  | nil => intro prev x hx; simp [emaAux] at hx
  | cons p ps ih =>
    intro prev x hx
    simp only [emaAux, List.mem_cons] at hx
    rcases hx with h | h
    · exact h ▸ round2_isDecimal2 _
    · exact ih _ x h

theorem atrAux_mem_isDecimal4 (p : ℚ) :
    ∀ (l : List ℚ) (acc : ℚ), ∀ x ∈ atrAux p acc l, isDecimal4 x := by
  intro l
  induction l with
  | nil => intro acc x hx; simp [atrAux] at hx
  | cons tr rest ih =>
    intro acc x hx
    simp only [atrAux, List.mem_cons] at hx
    rcases hx with h | h
    · exact h ▸ round4_isDecimal4 _
    · exact ih _ x h

theorem seed_tail_getD_mem {l2 : List ℚ} {seed : ℚ} {pad i : ℕ} {q : ℚ}
    (hi : pad + 1 ≤ i)
    (h : (List.replicate pad (none : Option ℚ) ++
      (some seed :: l2.map some)).getD i none = some q) : q ∈ l2 := by
  rw [List.getD_eq_getElem?_getD] at h
  rw [List.getElem?_append_right (by simp only [List.length_replicate]; omega)] at h
  simp only [List.length_replicate] at h
  obtain ⟨k, hk⟩ : ∃ k, i - pad = k + 1 := ⟨i - pad - 1, by omega⟩
  rw [hk, List.getElem?_cons_succ, List.getElem?_map] at h
  rcases h2 : l2[k]? with _ | x
  · rw [h2] at h
    exact absurd h (by simp)
  · rw [h2] at h
    simp at h
    exact h ▸ List.getElem?_mem h2

/-- C9 counterexample: the first defined EMA entry is the *unrounded* SMA
seed; on prices `[0, 1, 1]` with period 3 it is `2/3`, which is not a
2-decimal value. -/
theorem ema_seed_unrounded_counterexample :
    calculateEMA [0, 1, 1] 3 = [none, none, some (2/3)] ∧ ¬ isDecimal2 (2/3) := by
  refine ⟨?_, ?_⟩
  · norm_num [calculateEMA, emaAux, List.replicate]
  rintro ⟨n, hn⟩
  rw [div_eq_div_iff (by norm_num) (by norm_num)] at hn
  have h : (200 : ℤ) = n * 3 := by exact_mod_cast hn
  omega

/-- C9 (amended): every defined EMA entry *after* the seed slot is a
2-decimal value and every defined ATR entry after its seed slot is a
4-decimal value, while each seed slot holds the raw (unrounded) plain mean
— of the first `period` prices for EMA and of the first `period` true
ranges for ATR. -/
theorem ema_atr_rounding (prices : List ℚ) (candles : List Candle) (period : ℕ)
    (hp : 1 ≤ period) :
    (∀ i, period ≤ i → ∀ q, (calculateEMA prices period).getD i none = some q →
      isDecimal2 q) ∧
    (period ≤ prices.length →
      (calculateEMA prices period).getD (period - 1) none =
        some ((prices.take period).sum / period)) ∧
    (∀ i, period + 1 ≤ i → ∀ q, (calculateATR candles period).getD i none = some q →
      isDecimal4 q) ∧
    (∀ c0 rest, candles = c0 :: rest → period + 1 ≤ candles.length → c0.high ≠ 0 →
      (calculateATR candles period).getD period none =
        some (((List.zipWith trueRange candles candles.tail).take period).sum / period)) := by
  refine ⟨?_, ?_, ?_, ?_⟩
  · intro i hi q hq
    unfold calculateEMA at hq
    split at hq
    · simp [List.getD_eq_getElem?_getD] at hq
    · have hmem : q ∈ emaAux (2 / ((period : ℚ) + 1))
          ((prices.take period).sum / period) (prices.drop period) :=
        seed_tail_getD_mem (by omega) hq
      exact emaAux_mem_isDecimal2 _ _ _ _ hmem
  · intro hlen
    unfold calculateEMA
    rw [if_neg (by omega)]
    rw [List.getD_eq_getElem?_getD]
    rw [List.getElem?_append_right (by simp)]
    simp
  · intro i hi q hq
    rcases candles with _ | ⟨c0, rest⟩
    · simp [calculateATR, List.getD_eq_getElem?_getD] at hq
    · simp only [calculateATR] at hq
      split at hq
      · simp [List.getD_eq_getElem?_getD] at hq
      · have hmem : q ∈ atrAux period
            (((List.zipWith trueRange (c0 :: rest) (c0 :: rest).tail).take period).sum / period)
            ((List.zipWith trueRange (c0 :: rest) (c0 :: rest).tail).drop period) :=
          seed_tail_getD_mem (by omega) hq
        exact atrAux_mem_isDecimal4 _ _ _ _ hmem
  · intro c0 rest hc hlen hh
    subst hc
    simp only [calculateATR]
    rw [if_neg (not_or.mpr ⟨by omega, hh⟩)]
    rw [List.getD_eq_getElem?_getD]
    rw [List.getElem?_append_right (by simp)]
    simp

/-- C9 witness instance: period 1; EMA on `[1/4, 3]`: seed `1/4`, next
entry rounded; ATR on three candles. -/
theorem ema_atr_rounding_witness :
    1 ≤ 1 ∧
    ((∀ i, 1 ≤ i → ∀ q, (calculateEMA [1/4, 3] 1).getD i none = some q →
      isDecimal2 q) ∧
    (1 ≤ ([1/4, 3] : List ℚ).length →
      (calculateEMA [1/4, 3] 1).getD (1 - 1) none =
        some ((([1/4, 3] : List ℚ).take 1).sum / 1)) ∧
    (∀ i, 1 + 1 ≤ i → ∀ q,
      (calculateATR [⟨1, 3, 1, 2, 5⟩, ⟨2, 4, 2, 3, 5⟩, ⟨3, 5, 3, 4, 5⟩] 1).getD i none = some q →
      isDecimal4 q) ∧
    (∀ c0 rest, ([⟨1, 3, 1, 2, 5⟩, ⟨2, 4, 2, 3, 5⟩, ⟨3, 5, 3, 4, 5⟩] : List Candle) = c0 :: rest →
      1 + 1 ≤ ([⟨1, 3, 1, 2, 5⟩, ⟨2, 4, 2, 3, 5⟩, ⟨3, 5, 3, 4, 5⟩] : List Candle).length →
      c0.high ≠ 0 →
      (calculateATR [⟨1, 3, 1, 2, 5⟩, ⟨2, 4, 2, 3, 5⟩, ⟨3, 5, 3, 4, 5⟩] 1).getD 1 none =
        some (((List.zipWith trueRange
          ([⟨1, 3, 1, 2, 5⟩, ⟨2, 4, 2, 3, 5⟩, ⟨3, 5, 3, 4, 5⟩] : List Candle)
          ([⟨1, 3, 1, 2, 5⟩, ⟨2, 4, 2, 3, 5⟩, ⟨3, 5, 3, 4, 5⟩] : List Candle).tail).take 1).sum / 1))) :=
  ⟨by decide, ema_atr_rounding [1/4, 3] [⟨1, 3, 1, 2, 5⟩, ⟨2, 4, 2, 3, 5⟩, ⟨3, 5, 3, 4, 5⟩] 1 (by decide)⟩

theorem emaAux_length (m : ℚ) : ∀ (l : List ℚ) (prev : ℚ), (emaAux m prev l).length = l.length := by
  intro l
  induction l with
  | nil => intro prev; simp [emaAux]
  | cons p ps ih => intro prev; simp [emaAux, ih]

/-- C8: with at least `period` prices, `calculateSMA` and `calculateEMA`
both return sequences of the input length whose first `period-1` slots are
the `null` marker and whose remaining slots are all defined; with fewer
prices both return the empty sequence. -/
theorem sma_ema_shape (prices : List ℚ) (period : ℕ) (hp : 1 ≤ period) :
    (prices.length < period →
      calculateSMA prices period = [] ∧ calculateEMA prices period = []) ∧
    (period ≤ prices.length →
      (calculateSMA prices period).length = prices.length ∧
      (calculateEMA prices period).length = prices.length ∧
      (∀ i, i < period - 1 →
        (calculateSMA prices period).getD i none = none ∧
        (calculateEMA prices period).getD i none = none) ∧
      (∀ i, period - 1 ≤ i → i < prices.length →
        ((calculateSMA prices period).getD i none).isSome ∧
        ((calculateEMA prices period).getD i none).isSome)) := by
  constructor
  · intro hshort
    constructor
    · simp [calculateSMA, hshort]
    · simp [calculateEMA, hshort]
  · intro hlen
    have hnotlt : ¬ prices.length < period := by omega
    refine ⟨?_, ?_, ?_, ?_⟩
    · simp [calculateSMA, hnotlt]
      omega
    · simp [calculateEMA, hnotlt, emaAux_length]
      omega
    · intro i hi
      constructor
      · simp only [calculateSMA, if_neg hnotlt, List.getD_eq_getElem?_getD,
          List.getElem?_append, List.length_replicate, if_pos hi,
          List.getElem?_replicate]
        simp
      · simp only [calculateEMA, if_neg hnotlt, List.getD_eq_getElem?_getD,
          List.getElem?_append, List.length_replicate, if_pos hi,
          List.getElem?_replicate]
        simp
    · intro i hi1 hi2
      constructor
      · simp only [calculateSMA, if_neg hnotlt, List.getD_eq_getElem?_getD]
        rw [List.getElem?_append_right (by simp only [List.length_replicate]; omega)]
        simp only [List.length_replicate, List.getElem?_map]
        rw [List.getElem?_range (by omega)]
        simp
      · simp only [calculateEMA, if_neg hnotlt, List.getD_eq_getElem?_getD]
        rw [List.getElem?_append_right (by simp only [List.length_replicate]; omega)]
        simp only [List.length_replicate]
        rcases Nat.eq_zero_or_pos (i - (period - 1)) with hz | hpos
        · rw [hz]
          simp
        · obtain ⟨k, hk⟩ : ∃ k, i - (period - 1) = k + 1 := ⟨i - (period - 1) - 1, by omega⟩
          rw [hk, List.getElem?_cons_succ, List.getElem?_map]
          have hklt : k < (emaAux (2 / ((period : ℚ) + 1))
              ((prices.take period).sum / period) (prices.drop period)).length := by
            rw [emaAux_length]
            simp only [List.length_drop]
            omega
          rw [List.getElem?_eq_getElem hklt]
          simp

/-- C8 witness: prices `[1, 2, 3]` with period 2. -/
theorem sma_ema_shape_witness :
    1 ≤ 2 ∧
    ((([1, 2, 3] : List ℚ).length < 2 →
      calculateSMA [1, 2, 3] 2 = [] ∧ calculateEMA [1, 2, 3] 2 = []) ∧
    (2 ≤ ([1, 2, 3] : List ℚ).length →
      (calculateSMA [1, 2, 3] 2).length = ([1, 2, 3] : List ℚ).length ∧
      (calculateEMA [1, 2, 3] 2).length = ([1, 2, 3] : List ℚ).length ∧
      (∀ i, i < 2 - 1 →
        (calculateSMA [1, 2, 3] 2).getD i none = none ∧
        (calculateEMA [1, 2, 3] 2).getD i none = none) ∧
      (∀ i, 2 - 1 ≤ i → i < ([1, 2, 3] : List ℚ).length →
        ((calculateSMA [1, 2, 3] 2).getD i none).isSome ∧
        ((calculateEMA [1, 2, 3] 2).getD i none).isSome))) :=
  ⟨by decide, sma_ema_shape [1, 2, 3] 2 (by decide)⟩

theorem priceChanges_length (prices : List ℚ) :
    (priceChanges prices).length = prices.length - 1 := by
  simp [priceChanges]

theorem chain_eq_changes (prices : List ℚ) (h : List.Chain' (· = ·) prices) :
    ∀ c ∈ priceChanges prices, c = 0 := by
  induction prices with
  | nil => intro c hc; simp [priceChanges] at hc
  | cons a l ih =>
    cases l with
    | nil => intro c hc; simp [priceChanges] at hc
    | cons b l2 =>
      intro c hc
      rw [List.chain'_cons] at h
      have hred : priceChanges (a :: b :: l2) = (b - a) :: priceChanges (b :: l2) := rfl
      rw [hred] at hc
      rcases List.mem_cons.mp hc with h1 | h1
      · rw [h1, h.1]; ring
      · exact ih h.2 c h1

theorem chain_lt_changes (prices : List ℚ) (h : List.Chain' (· < ·) prices) :
    ∀ c ∈ priceChanges prices, 0 < c := by
  induction prices with
  | nil => intro c hc; simp [priceChanges] at hc
  | cons a l ih =>
    cases l with
    | nil => intro c hc; simp [priceChanges] at hc
    | cons b l2 =>
      intro c hc
      rw [List.chain'_cons] at h
      have hred : priceChanges (a :: b :: l2) = (b - a) :: priceChanges (b :: l2) := rfl
      rw [hred] at hc
      rcases List.mem_cons.mp hc with h1 | h1
      · rw [h1]; linarith [h.1]
      · exact ih h.2 c h1

theorem chain_gt_changes (prices : List ℚ) (h : List.Chain' (· > ·) prices) :
    ∀ c ∈ priceChanges prices, c < 0 := by
  induction prices with
  | nil => intro c hc; simp [priceChanges] at hc
  | cons a l ih =>
    cases l with
    | nil => intro c hc; simp [priceChanges] at hc
    | cons b l2 =>
      intro c hc
      rw [List.chain'_cons] at h
      have hred : priceChanges (a :: b :: l2) = (b - a) :: priceChanges (b :: l2) := rfl
      rw [hred] at hc
      rcases List.mem_cons.mp hc with h1 | h1
      · rw [h1]; have := h.1; linarith
      · exact ih h.2 c h1

theorem wilderAvg_nonneg {p seed : ℚ} (hp : 1 ≤ p) (hs : 0 ≤ seed) :
    ∀ {xs : List ℚ}, (∀ x ∈ xs, 0 ≤ x) → 0 ≤ wilderAvg p seed xs := by
  intro xs
  induction xs generalizing seed with
  | nil => intro _; exact hs
  | cons y ys ih =>
    intro hxs
    have hy : 0 ≤ y := hxs y (List.mem_cons_self _ _)
    have hstep : 0 ≤ (seed * (p - 1) + y) / p := by
      apply div_nonneg _ (by linarith)
      have : 0 ≤ seed * (p - 1) := mul_nonneg hs (by linarith)
      linarith
    exact ih hstep fun x hx => hxs x (List.mem_cons_of_mem _ hx)

theorem wilderAvg_pos {p seed : ℚ} (hp : 1 < p) (hs : 0 < seed) :
    ∀ {xs : List ℚ}, (∀ x ∈ xs, 0 ≤ x) → 0 < wilderAvg p seed xs := by
  intro xs
  induction xs generalizing seed with
  | nil => intro _; exact hs
  | cons y ys ih =>
    intro hxs
    have hy : 0 ≤ y := hxs y (List.mem_cons_self _ _)
    have hstep : 0 < (seed * (p - 1) + y) / p := by
      apply div_pos _ (by linarith)
      have : 0 < seed * (p - 1) := mul_pos hs (by linarith)
      linarith
    exact ih hstep fun x hx => hxs x (List.mem_cons_of_mem _ hx)

theorem wilderAvg_pos_of_mem {p seed x : ℚ} (hp : 1 < p) (hs : 0 ≤ seed)
    (hxpos : 0 < x) :
    ∀ {xs : List ℚ}, x ∈ xs → (∀ y ∈ xs, 0 ≤ y) → 0 < wilderAvg p seed xs := by
  intro xs
  induction xs generalizing seed with
  | nil => intro hx; simp at hx
  | cons y ys ih =>
    intro hx hxs
    have hy : 0 ≤ y := hxs y (List.mem_cons_self _ _)
    rcases List.mem_cons.mp hx with h1 | h1
    · subst h1
      have hstep : 0 < (seed * (p - 1) + x) / p := by
        apply div_pos _ (by linarith)
        have : 0 ≤ seed * (p - 1) := mul_nonneg hs (by linarith)
        linarith
      exact wilderAvg_pos hp hstep fun z hz => hxs z (List.mem_cons_of_mem _ hz)
    · have hstep : 0 ≤ (seed * (p - 1) + y) / p := by
        apply div_nonneg _ (by linarith)
        have : 0 ≤ seed * (p - 1) := mul_nonneg hs (by linarith)
        linarith
      exact ih hstep h1 fun z hz => hxs z (List.mem_cons_of_mem _ hz)

theorem rsiLosses_nonneg (changes : List ℚ) : ∀ x ∈ rsiLosses changes, 0 ≤ x := by
  intro x hx
  rcases List.mem_map.mp hx with ⟨c, _, hfc⟩
  rw [← hfc]
  split
  · exact abs_nonneg c
  · exact le_refl 0

/-- C2: `calculateRSI` returns the `null` sentinel on fewer than
`period+1` prices; exactly 50 on a constant series; exactly 100 on a
strictly increasing series; exactly 0 on a strictly decreasing series;
and otherwise the Wilder-smoothed RSI rounded to 2 decimals, where the
final division is guarded (`avgLoss = 0` returns 100 instead of dividing)
and for every period ≥ 2 the guard is provably never needed
(`avgLoss > 0`), so no division by zero occurs. -/
theorem rsi_contract (prices : List ℚ) (period : ℕ) (hp : 1 ≤ period) :
    (prices.length < period + 1 → calculateRSI prices period = none) ∧
    (period + 1 ≤ prices.length → List.Chain' (· = ·) prices →
      calculateRSI prices period = some 50) ∧
    (period + 1 ≤ prices.length → List.Chain' (· < ·) prices →
      calculateRSI prices period = some 100) ∧
    (period + 1 ≤ prices.length → List.Chain' (· > ·) prices →
      calculateRSI prices period = some 0) ∧
    (period + 1 ≤ prices.length →
      (∃ c ∈ priceChanges prices, 0 < c) → (∃ c ∈ priceChanges prices, c < 0) →
      (calculateRSI prices period =
        some (if wilderAvg period
            (((rsiLosses (priceChanges prices)).take period).sum / period)
            ((rsiLosses (priceChanges prices)).drop period) = 0 then 100
          else round2 (100 - 100 / (1 +
            wilderAvg period (((rsiGains (priceChanges prices)).take period).sum / period)
              ((rsiGains (priceChanges prices)).drop period) /
            wilderAvg period (((rsiLosses (priceChanges prices)).take period).sum / period)
              ((rsiLosses (priceChanges prices)).drop period))))) ∧
      (2 ≤ period → 0 < wilderAvg period
        (((rsiLosses (priceChanges prices)).take period).sum / period)
        ((rsiLosses (priceChanges prices)).drop period))) := by
  refine ⟨?_, ?_, ?_, ?_, ?_⟩
  · intro hshort
    simp [calculateRSI, hshort]
  · intro hlen hch
    have hall : ((priceChanges prices).all fun c => decide (c = 0)) = true := by
      rw [List.all_eq_true]
      intro c hc
      simpa using chain_eq_changes prices hch c hc
    simp only [calculateRSI, if_neg (by omega : ¬ prices.length < period + 1), if_pos hall]
  · intro hlen hch
    have hpos := chain_lt_changes prices hch
    have hne : priceChanges prices ≠ [] := by
      have := priceChanges_length prices
      intro hnil
      rw [hnil] at this
      simp at this
      omega
    obtain ⟨c0, hc0⟩ := List.exists_mem_of_ne_nil _ hne
    have hall : ¬ (((priceChanges prices).all fun c => decide (c = 0)) = true) := by
      rw [List.all_eq_true]
      intro hall
      have := hall c0 hc0
      simp at this
      have := hpos c0 hc0
      linarith
    have hloss : ((rsiLosses (priceChanges prices)).all fun c => decide (c = 0)) = true := by
      rw [List.all_eq_true]
      intro x hx
      rcases List.mem_map.mp hx with ⟨c, hc, hfc⟩
      have := hpos c hc
      simp only [← hfc]
      rw [if_neg (by linarith)]
      simp
    simp only [calculateRSI, if_neg (by omega : ¬ prices.length < period + 1),
      if_neg hall, if_pos hloss]
  · intro hlen hch
    have hneg := chain_gt_changes prices hch
    have hne : priceChanges prices ≠ [] := by
      have := priceChanges_length prices
      intro hnil
      rw [hnil] at this
      simp at this
      omega
    obtain ⟨c0, hc0⟩ := List.exists_mem_of_ne_nil _ hne
    have hall : ¬ (((priceChanges prices).all fun c => decide (c = 0)) = true) := by
      rw [List.all_eq_true]
      intro hall
      have h1 := hall c0 hc0
      simp at h1
      have := hneg c0 hc0
      linarith
    have hloss : ¬ (((rsiLosses (priceChanges prices)).all fun c => decide (c = 0)) = true) := by
      rw [List.all_eq_true]
      intro hall
      have hm : |c0| ∈ rsiLosses (priceChanges prices) := by
        refine List.mem_map.mpr ⟨c0, hc0, ?_⟩
        simp [hneg c0 hc0]
      have h1 := hall _ hm
      simp at h1
      have := hneg c0 hc0
      linarith
    have hgain : ((rsiGains (priceChanges prices)).all fun c => decide (c = 0)) = true := by
      rw [List.all_eq_true]
      intro x hx
      rcases List.mem_map.mp hx with ⟨c, hc, hfc⟩
      have := hneg c hc
      simp only [← hfc]
      rw [if_neg (by linarith)]
      simp
    simp only [calculateRSI, if_neg (by omega : ¬ prices.length < period + 1),
      if_neg hall, if_neg hloss, if_pos hgain]
  · intro hlen hpos hneg
    obtain ⟨cp, hcp, hcppos⟩ := hpos
    obtain ⟨cn, hcn, hcnneg⟩ := hneg
    have hall : ¬ (((priceChanges prices).all fun c => decide (c = 0)) = true) := by
      rw [List.all_eq_true]
      intro hall
      have := hall cp hcp
      simp at this
      linarith
    have hloss : ¬ (((rsiLosses (priceChanges prices)).all fun c => decide (c = 0)) = true) := by
      rw [List.all_eq_true]
      intro hall
      have hm : |cn| ∈ rsiLosses (priceChanges prices) := by
        refine List.mem_map.mpr ⟨cn, hcn, ?_⟩
        simp [hcnneg]
      have h1 := hall _ hm
      simp at h1
      linarith
    have hgain : ¬ (((rsiGains (priceChanges prices)).all fun c => decide (c = 0)) = true) := by
      rw [List.all_eq_true]
      intro hall
      have hm : cp ∈ rsiGains (priceChanges prices) := by
        refine List.mem_map.mpr ⟨cp, hcp, ?_⟩
        simp [hcppos]
      have h1 := hall _ hm
      simp at h1
      linarith
    constructor
    · simp only [calculateRSI, if_neg (by omega : ¬ prices.length < period + 1),
        if_neg hall, if_neg hloss, if_neg hgain]
      split_ifs <;> rfl
    · intro hp2
      have hp2q : (1 : ℚ) < (period : ℚ) := by exact_mod_cast by omega
      have hlossnn := rsiLosses_nonneg (priceChanges prices)
      have hm : |cn| ∈ rsiLosses (priceChanges prices) := by
        refine List.mem_map.mpr ⟨cn, hcn, ?_⟩
        simp [hcnneg]
      have habs : 0 < |cn| := abs_pos.mpr (ne_of_lt hcnneg)
      rcases List.mem_append.mp ((List.take_append_drop period
          (rsiLosses (priceChanges prices))) ▸ hm) with htk | hdr
      · have hsum : 0 < ((rsiLosses (priceChanges prices)).take period).sum := by
          have hle := List.single_le_sum
            (fun x hx => hlossnn x (List.mem_of_mem_take hx)) _ htk
          linarith
        have hseed : 0 < ((rsiLosses (priceChanges prices)).take period).sum / period := by
          apply div_pos hsum
          exact_mod_cast by omega
        exact wilderAvg_pos hp2q hseed
          fun x hx => hlossnn x (List.mem_of_mem_drop hx)
      · have hseed : 0 ≤ ((rsiLosses (priceChanges prices)).take period).sum / period := by
          apply div_nonneg
          · exact List.sum_nonneg fun x hx => hlossnn x (List.mem_of_mem_take hx)
          · positivity
        exact wilderAvg_pos_of_mem hp2q hseed habs hdr
          fun x hx => hlossnn x (List.mem_of_mem_drop hx)

/-- C2 witness: prices `[1, 0, 1, 2, 3]`, period 2 (mixed gains and
losses). -/
theorem rsi_contract_witness :
    1 ≤ 2 ∧
    ((([1, 0, 1, 2, 3] : List ℚ).length < 2 + 1 →
      calculateRSI [1, 0, 1, 2, 3] 2 = none) ∧
    (2 + 1 ≤ ([1, 0, 1, 2, 3] : List ℚ).length →
      List.Chain' (· = ·) ([1, 0, 1, 2, 3] : List ℚ) →
      calculateRSI [1, 0, 1, 2, 3] 2 = some 50) ∧
    (2 + 1 ≤ ([1, 0, 1, 2, 3] : List ℚ).length →
      List.Chain' (· < ·) ([1, 0, 1, 2, 3] : List ℚ) →
      calculateRSI [1, 0, 1, 2, 3] 2 = some 100) ∧
    (2 + 1 ≤ ([1, 0, 1, 2, 3] : List ℚ).length →
      List.Chain' (· > ·) ([1, 0, 1, 2, 3] : List ℚ) →
      calculateRSI [1, 0, 1, 2, 3] 2 = some 0) ∧
    (2 + 1 ≤ ([1, 0, 1, 2, 3] : List ℚ).length →
      (∃ c ∈ priceChanges [1, 0, 1, 2, 3], 0 < c) →
      (∃ c ∈ priceChanges [1, 0, 1, 2, 3], c < 0) →
      (calculateRSI [1, 0, 1, 2, 3] 2 =
        some (if wilderAvg ((2 : ℕ) : ℚ)
            (((rsiLosses (priceChanges [1, 0, 1, 2, 3])).take 2).sum / ((2 : ℕ) : ℚ))
            ((rsiLosses (priceChanges [1, 0, 1, 2, 3])).drop 2) = 0 then 100
          else round2 (100 - 100 / (1 +
            wilderAvg ((2 : ℕ) : ℚ)
              (((rsiGains (priceChanges [1, 0, 1, 2, 3])).take 2).sum / ((2 : ℕ) : ℚ))
              ((rsiGains (priceChanges [1, 0, 1, 2, 3])).drop 2) /
            wilderAvg ((2 : ℕ) : ℚ)
              (((rsiLosses (priceChanges [1, 0, 1, 2, 3])).take 2).sum / ((2 : ℕ) : ℚ))
              ((rsiLosses (priceChanges [1, 0, 1, 2, 3])).drop 2))))) ∧
      (2 ≤ 2 → 0 < wilderAvg ((2 : ℕ) : ℚ)
        (((rsiLosses (priceChanges [1, 0, 1, 2, 3])).take 2).sum / ((2 : ℕ) : ℚ))
        ((rsiLosses (priceChanges [1, 0, 1, 2, 3])).drop 2)))) :=
  ⟨by decide, rsi_contract [1, 0, 1, 2, 3] 2 (by decide)⟩

theorem listMin_of_ne_nil {l : List ℚ} (h : l ≠ []) : ∃ m, listMin l = some m := by
  cases l with
  | nil => exact absurd rfl h
  | cons x xs => exact ⟨xs.foldl min x, rfl⟩

/-- C1: on any snapshot with a numeric RSI below 30 (and a positive price
and a non-empty recent-candle window), the engine emits exactly one BUY
alert; its confidence is HIGH with ≥ 2 of the three confirmations (MACD,
price ≤ 1.01 × lower Bollinger band, volume change > 20), MEDIUM with
exactly 1, LOW with none; its target is `price * (1 + (30 - RSI)/100)`,
strictly above the price; its stopLoss is 0.99 × the minimum low of the
last 5 candles. -/
theorem buy_alert_rule (s : Snapshot) (r h bl v : ℚ)
    (hr : s.rsi = some r) (hr30 : r < 30)
    (hh : s.macdHistogram = some h)
    (hb : s.bollLower = some bl)
    (hv : s.volumeChange = some v)
    (hp : 0 < s.lastPrice)
    (hc : s.candles ≠ []) :
    ∃ a, (generateTechnicalAlerts s).buy = [a] ∧
      a.type = AlertType.buy ∧
      (a.confidence =
        (if 2 ≤ List.count true [confirmedByMACDBuy (some h),
            decide (s.lastPrice ≤ bl * 1.01), decide (20 < v)] then Confidence.high
         else if List.count true [confirmedByMACDBuy (some h),
            decide (s.lastPrice ≤ bl * 1.01), decide (20 < v)] = 1 then Confidence.medium
         else Confidence.low)) ∧
      a.target = some (s.lastPrice * (1 + (30 - r) / 100)) ∧
      (∀ t, a.target = some t → s.lastPrice < t) ∧
      (∃ m, listMin ((s.candles.drop (s.candles.length - 5)).map Candle.low) = some m ∧
        a.stopLoss = some (m * 0.99)) := by
  have hguard : jsNullLt s.rsi 30 = true := by
    rw [hr]
    simp [jsNullLt, hr30]
  refine ⟨mkBuyAlert s, ?_, rfl, ?_, ?_, ?_, ?_⟩
  · simp only [generateTechnicalAlerts, hguard]
    simp
  · simp only [mkBuyAlert, hh, hb, hv, confirmedByBollingerBuy, confirmedByVolume,
      jsGtThreshold]
    rcases hA : confirmedByMACDBuy (some h) <;>
      rcases hB : decide (s.lastPrice ≤ bl * 1.01) <;>
      rcases hC : decide (20 < v) <;>
      simp [confirmationCount, confidenceOfCount, List.count_cons]
  · simp [mkBuyAlert, hr, jsNumOr0]
  · intro t ht
    simp only [mkBuyAlert, hr, jsNumOr0, Option.some.injEq] at ht
    have hd : 0 < (30 - r) / 100 := div_pos (by linarith) (by norm_num)
    have hexp : s.lastPrice * (1 + (30 - r) / 100) =
        s.lastPrice + s.lastPrice * ((30 - r) / 100) := by ring
    have hmul : 0 < s.lastPrice * ((30 - r) / 100) := mul_pos hp hd
    rw [← ht, hexp]
    linarith
  · have hne : (s.candles.drop (s.candles.length - 5)).map Candle.low ≠ [] := by
      intro hnil
      have h1 := congrArg List.length hnil
      simp only [List.length_map, List.length_drop, List.length_nil] at h1
      have h2 : s.candles.length ≠ 0 := fun hz => hc (List.length_eq_zero.mp hz)
      omega
    obtain ⟨m, hm⟩ := listMin_of_ne_nil hne
    refine ⟨m, hm, ?_⟩
    simp only [mkBuyAlert]
    rw [hm]
    rfl

/-- C1 witness: the claimed example snapshot — RSI 25, MACD histogram
+0.5, price 100.5 = 1.005 × lower band 100, volume change 30. -/
theorem buy_alert_rule_witness :
    c1Snap.rsi = some 25 ∧ (25 : ℚ) < 30 ∧ c1Snap.macdHistogram = some (1/2) ∧
    c1Snap.bollLower = some 100 ∧ c1Snap.volumeChange = some 30 ∧
    0 < c1Snap.lastPrice ∧ c1Snap.candles ≠ [] ∧
    (∃ a, (generateTechnicalAlerts c1Snap).buy = [a] ∧
      a.type = AlertType.buy ∧
      (a.confidence =
        (if 2 ≤ List.count true [confirmedByMACDBuy (some (1/2)),
            decide (c1Snap.lastPrice ≤ 100 * 1.01), decide ((20 : ℚ) < 30)] then Confidence.high
         else if List.count true [confirmedByMACDBuy (some (1/2)),
            decide (c1Snap.lastPrice ≤ 100 * 1.01), decide ((20 : ℚ) < 30)] = 1 then Confidence.medium
         else Confidence.low)) ∧
      a.target = some (c1Snap.lastPrice * (1 + (30 - 25) / 100)) ∧
      (∀ t, a.target = some t → c1Snap.lastPrice < t) ∧
      (∃ m, listMin ((c1Snap.candles.drop (c1Snap.candles.length - 5)).map Candle.low) = some m ∧
        a.stopLoss = some (m * 0.99))) :=
  ⟨rfl, by norm_num, rfl, rfl, rfl, by norm_num [c1Snap], by simp [c1Snap],
    buy_alert_rule c1Snap 25 (1/2) 100 30 rfl (by norm_num) rfl rfl rfl
      (by norm_num [c1Snap]) (by simp [c1Snap])⟩

/-- C4: the per-price-batch path emits at most one MONITORING alert per
symbol and run, and its `monitoring_type` is the first matching reason in
the fixed priority order: support proximity within 3%, then resistance
proximity within 3%, then volume change > 50, then ADX > 25 — a lower
reason fires only when every earlier one fails. -/
theorem monitoring_priority (price : ℚ) (supports resistances : List ℚ)
    (volumeChange adxValue : Option ℚ) (hp : 0 < price) :
    (apiMonitoringAlerts price supports resistances volumeChange adxValue).length ≤ 1 ∧
    ∀ a ∈ apiMonitoringAlerts price supports resistances volumeChange adxValue,
      (a.monitoringType = some MonType.nearSupport ↔
        supportProximity price supports = true) ∧
      (a.monitoringType = some MonType.nearResistance ↔
        (supportProximity price supports = false ∧
          resistanceProximity price resistances = true)) ∧
      (a.monitoringType = some MonType.atypicalVolume ↔
        (supportProximity price supports = false ∧
          resistanceProximity price resistances = false ∧
          jsGtThreshold volumeChange 50 = true)) ∧
      (a.monitoringType = some MonType.strongTrend ↔
        (supportProximity price supports = false ∧
          resistanceProximity price resistances = false ∧
          jsGtThreshold volumeChange 50 = false ∧
          jsGtThreshold adxValue 25 = true)) := by
  by_cases hE : supports = [] ∧ resistances = []
  · constructor
    · simp [apiMonitoringAlerts, apiMonitoringType, hE]
    · intro a ha
      simp [apiMonitoringAlerts, apiMonitoringType, hE] at ha
  · rcases hS : supportProximity price supports with _ | _ <;>
      rcases hR : resistanceProximity price resistances with _ | _ <;>
        rcases hV : jsGtThreshold volumeChange 50 with _ | _ <;>
          rcases hA : jsGtThreshold adxValue 25 with _ | _ <;>
            (constructor
             · simp [apiMonitoringAlerts, apiMonitoringType, hE, hS, hR, hV, hA]
             · intro a ha
               simp only [apiMonitoringAlerts, apiMonitoringType, if_neg hE,
                 hS, hR, hV, hA, if_true, if_false, Bool.false_eq_true,
                 List.mem_singleton] at ha
               first
               | (simp at ha)
               | (subst ha
                  refine ⟨?_, ?_, ?_, ?_⟩ <;> simp [hS, hR, hV, hA]))

/-- C4 witness: price 100, strongest support 90 (10% away — fails),
strongest resistance 101 (1% — fires), volume change 60 and ADX 30 (both
match but are lower priority). -/
theorem monitoring_priority_witness :
    (0 : ℚ) < 100 ∧
    ((apiMonitoringAlerts 100 [90] [101] (some 60) (some 30)).length ≤ 1 ∧
    ∀ a ∈ apiMonitoringAlerts 100 [90] [101] (some 60) (some 30),
      (a.monitoringType = some MonType.nearSupport ↔
        supportProximity 100 [90] = true) ∧
      (a.monitoringType = some MonType.nearResistance ↔
        (supportProximity 100 [90] = false ∧
          resistanceProximity 100 [101] = true)) ∧
      (a.monitoringType = some MonType.atypicalVolume ↔
        (supportProximity 100 [90] = false ∧
          resistanceProximity 100 [101] = false ∧
          jsGtThreshold (some 60) 50 = true)) ∧
      (a.monitoringType = some MonType.strongTrend ↔
        (supportProximity 100 [90] = false ∧
          resistanceProximity 100 [101] = false ∧
          jsGtThreshold (some 60) 50 = false ∧
          jsGtThreshold (some 30) 25 = true))) :=
  ⟨by norm_num, monitoring_priority 100 [90] [101] (some 60) (some 30) (by norm_num)⟩

/-- C5: on an *empty* candle series the pipeline returns the empty alert
result, as claimed; but on a 1-candle series — where every required
sub-computation fails (`calculateRSI` returns the `null` sentinel) — the
aggregator does *not* produce the error outcome, and the JS guard
`null < 30` coerces the `null` RSI to 0, so the engine emits one BUY
alert (confidence LOW) instead of the claimed empty result. -/
theorem insufficient_data_not_always_empty :
    (∀ sqrtF : ℚ → ℚ, generateAlertsFromCandles sqrtF [] = ⟨[], [], []⟩) ∧
    calculateRSI [(10 : ℚ)] 14 = none ∧
    (∀ sqrtF : ℚ → ℚ,
      (generateAlertsFromCandles sqrtF [⟨10, 10, 9, 10, 100⟩]).buy.length = 1 ∧
      ((generateAlertsFromCandles sqrtF [⟨10, 10, 9, 10, 100⟩]).buy.head?.map
        Alert.type) = some AlertType.buy ∧
      ((generateAlertsFromCandles sqrtF [⟨10, 10, 9, 10, 100⟩]).buy.head?.map
        Alert.confidence) = some Confidence.low ∧
      (generateAlertsFromCandles sqrtF [⟨10, 10, 9, 10, 100⟩]).sell = [] ∧
      (generateAlertsFromCandles sqrtF [⟨10, 10, 9, 10, 100⟩]).monitoring = []) :=
  ⟨fun _ => rfl, rfl, fun _ => ⟨rfl, rfl, rfl, rfl, rfl⟩⟩

/-- C7 (amended): a support point is collected exactly when its candle lies
in the scan window `[5, length-6]` *and* its low is strictly below the lows
of its 2 neighbours on each side (resistances analogously with highs);
clustering is greedy in arrival order — a point merges into the *first*
group within 0.5% relative distance of the group's running
weighted-average price, updating the weighted mean and strength, and
otherwise appends a fresh group of strength 1 (so 100 and 100.3 merge into
one group of strength 2 with price 100.15 while 110 stays separate); the
finder returns at most the top 3 groups per side. -/
theorem sr_finder_rules (candles : List Candle) (l : Level)
    (gs1 gs2 gs3 : List LevelGroup) (g : LevelGroup) (p q : ℚ) (lookback : ℕ)
    (h1 : ∀ g' ∈ gs1, ¬ |p - g'.price| / g'.price < 5/1000)
    (h2 : |p - g.price| / g.price < 5/1000)
    (h3 : ∀ g' ∈ gs3, ¬ |q - g'.price| / g'.price < 5/1000) :
    (l ∈ collectSupports candles ↔
      (5 ≤ l.idx ∧ l.idx + 5 < candles.length ∧
        (nthCandle candles l.idx).low < (nthCandle candles (l.idx - 1)).low ∧
        (nthCandle candles l.idx).low < (nthCandle candles (l.idx - 2)).low ∧
        (nthCandle candles l.idx).low < (nthCandle candles (l.idx + 1)).low ∧
        (nthCandle candles l.idx).low < (nthCandle candles (l.idx + 2)).low ∧
        l.price = (nthCandle candles l.idx).low)) ∧
    (l ∈ collectResistances candles ↔
      (5 ≤ l.idx ∧ l.idx + 5 < candles.length ∧
        (nthCandle candles (l.idx - 1)).high < (nthCandle candles l.idx).high ∧
        (nthCandle candles (l.idx - 2)).high < (nthCandle candles l.idx).high ∧
        (nthCandle candles (l.idx + 1)).high < (nthCandle candles l.idx).high ∧
        (nthCandle candles (l.idx + 2)).high < (nthCandle candles l.idx).high ∧
        l.price = (nthCandle candles l.idx).high)) ∧
    addToGroups (gs1 ++ g :: gs2) p =
      gs1 ++ ⟨(g.price * g.strength + p) / ((g.strength : ℚ) + 1), g.strength + 1⟩ :: gs2 ∧
    addToGroups gs3 q = gs3 ++ [⟨q, 1⟩] ∧
    groupLevels [⟨100, 10⟩, ⟨100.3, 15⟩, ⟨110, 20⟩] = [⟨100.15, 2⟩, ⟨110, 1⟩] ∧
    (findSupportResistanceLevels candles lookback).support.length ≤ 3 ∧
    (findSupportResistanceLevels candles lookback).resistance.length ≤ 3 := by
  refine ⟨?_, ?_, ?_, ?_, ?_, ?_, ?_⟩
  · constructor
    · intro hl
      rcases List.mem_filterMap.mp hl with ⟨i, hi, hfi⟩
      split at hfi
      · rename_i hcond
        cases hfi
        exact ⟨hcond.1, hcond.2.1, hcond.2.2.1, hcond.2.2.2.1, hcond.2.2.2.2.1,
          hcond.2.2.2.2.2, rfl⟩
      · exact absurd hfi (by simp)
    · rintro ⟨ha, hb, hc, hd, he, hf, hg⟩
      refine List.mem_filterMap.mpr ⟨l.idx, List.mem_range.mpr (by omega), ?_⟩
      rw [if_pos ⟨ha, hb, hc, hd, he, hf⟩]
      cases l with
      | mk lp li => simp only at hg; rw [hg]
  · constructor
    · intro hl
      rcases List.mem_filterMap.mp hl with ⟨i, hi, hfi⟩
      split at hfi
      · rename_i hcond
        cases hfi
        exact ⟨hcond.1, hcond.2.1, hcond.2.2.1, hcond.2.2.2.1, hcond.2.2.2.2.1,
          hcond.2.2.2.2.2, rfl⟩
      · exact absurd hfi (by simp)
    · rintro ⟨ha, hb, hc, hd, he, hf, hg⟩
      refine List.mem_filterMap.mpr ⟨l.idx, List.mem_range.mpr (by omega), ?_⟩
      rw [if_pos ⟨ha, hb, hc, hd, he, hf⟩]
      cases l with
      | mk lp li => simp only at hg; rw [hg]
  · induction gs1 with
    | nil => simp only [List.nil_append, addToGroups, if_pos h2]
    | cons g0 gsr ih =>
      simp only [List.cons_append, addToGroups,
        if_neg (h1 g0 (List.mem_cons_self _ _)), List.cons.injEq, true_and]
      exact ih fun g' hg' => h1 g' (List.mem_cons_of_mem _ hg')
  · induction gs3 with
    | nil => rfl
    | cons g0 gsr ih =>
      simp only [addToGroups, if_neg (h3 g0 (List.mem_cons_self _ _)),
        List.cons_append, List.cons.injEq, true_and]
      exact ih fun g' hg' => h3 g' (List.mem_cons_of_mem _ hg')
  · show addToGroups (addToGroups (addToGroups [] 100) (100.3 : ℚ)) 110 =
      [⟨100.15, 2⟩, ⟨110, 1⟩]
    have s1 : addToGroups [] 100 = [⟨100, 1⟩] := rfl
    have s2 : addToGroups [⟨100, 1⟩] (100.3 : ℚ) = [⟨100.15, 2⟩] := by
      simp only [addToGroups]
      rw [if_pos (by norm_num [abs_of_pos])]
      norm_num
    have s3 : addToGroups [⟨100.15, 2⟩] (110 : ℚ) = [⟨100.15, 2⟩, ⟨110, 1⟩] := by
      simp only [addToGroups]
      rw [if_neg (by norm_num [abs_of_pos])]
    rw [s1, s2, s3]
  · rcases candles with _ | ⟨c0, rest⟩
    · simp [findSupportResistanceLevels]
    · simp only [findSupportResistanceLevels]
      split
      · simp
      · simp
  · rcases candles with _ | ⟨c0, rest⟩
    · simp [findSupportResistanceLevels]
    · simp only [findSupportResistanceLevels]
      split
      · simp
      · simp

/-- C7 counterexample: in `c7Candles` the candle at index 3 is strictly
lower than the lows of its 2 neighbours on each side, yet the collection
loop (which scans only `i = 5 .. length-6`) collects nothing, so the
claimed "collected exactly when strictly lower than the 2 neighbours on
each side" is false. -/
theorem sr_window_counterexample :
    strictLocalMinLow c7Candles 3 ∧
    collectSupports c7Candles = [] ∧
    (findSupportResistanceLevels c7Candles 30).support = [] ∧
    ¬ (∀ i, strictLocalMinLow c7Candles i →
        ∃ l ∈ collectSupports c7Candles, l.idx = i) := by
  refine ⟨by decide, by decide, by decide, ?_⟩
  intro hcl
  obtain ⟨l, hl, _⟩ := hcl 3 (by decide)
  rw [show collectSupports c7Candles = [] from by decide] at hl
  simp at hl

/-- C7 witness: concrete instances for the clustering hypotheses (an empty
earlier-group list, group at price 100, merging point 100.3, fresh point
50). -/
theorem sr_finder_rules_witness :
    (∀ g' ∈ ([] : List LevelGroup), ¬ |(100.3 : ℚ) - g'.price| / g'.price < 5/1000) ∧
    |(100.3 : ℚ) - (⟨100, 1⟩ : LevelGroup).price| / (⟨100, 1⟩ : LevelGroup).price < 5/1000 ∧
    (∀ g' ∈ ([] : List LevelGroup), ¬ |(50 : ℚ) - g'.price| / g'.price < 5/1000) ∧
    ((⟨1, 3⟩ : Level) ∈ collectSupports c7Candles ↔
      (5 ≤ (⟨1, 3⟩ : Level).idx ∧ (⟨1, 3⟩ : Level).idx + 5 < c7Candles.length ∧
        (nthCandle c7Candles (⟨1, 3⟩ : Level).idx).low <
          (nthCandle c7Candles ((⟨1, 3⟩ : Level).idx - 1)).low ∧
        (nthCandle c7Candles (⟨1, 3⟩ : Level).idx).low <
          (nthCandle c7Candles ((⟨1, 3⟩ : Level).idx - 2)).low ∧
        (nthCandle c7Candles (⟨1, 3⟩ : Level).idx).low <
          (nthCandle c7Candles ((⟨1, 3⟩ : Level).idx + 1)).low ∧
        (nthCandle c7Candles (⟨1, 3⟩ : Level).idx).low <
          (nthCandle c7Candles ((⟨1, 3⟩ : Level).idx + 2)).low ∧
        (⟨1, 3⟩ : Level).price = (nthCandle c7Candles (⟨1, 3⟩ : Level).idx).low)) ∧
    ((⟨1, 3⟩ : Level) ∈ collectResistances c7Candles ↔
      (5 ≤ (⟨1, 3⟩ : Level).idx ∧ (⟨1, 3⟩ : Level).idx + 5 < c7Candles.length ∧
        (nthCandle c7Candles ((⟨1, 3⟩ : Level).idx - 1)).high <
          (nthCandle c7Candles (⟨1, 3⟩ : Level).idx).high ∧
        (nthCandle c7Candles ((⟨1, 3⟩ : Level).idx - 2)).high <
          (nthCandle c7Candles (⟨1, 3⟩ : Level).idx).high ∧
        (nthCandle c7Candles ((⟨1, 3⟩ : Level).idx + 1)).high <
          (nthCandle c7Candles (⟨1, 3⟩ : Level).idx).high ∧
        (nthCandle c7Candles ((⟨1, 3⟩ : Level).idx + 2)).high <
          (nthCandle c7Candles (⟨1, 3⟩ : Level).idx).high ∧
        (⟨1, 3⟩ : Level).price = (nthCandle c7Candles (⟨1, 3⟩ : Level).idx).high)) ∧
    addToGroups (([] : List LevelGroup) ++ (⟨100, 1⟩ : LevelGroup) :: []) (100.3 : ℚ) =
      ([] : List LevelGroup) ++
        (⟨((⟨100, 1⟩ : LevelGroup).price * (⟨100, 1⟩ : LevelGroup).strength + (100.3 : ℚ)) /
            (((⟨100, 1⟩ : LevelGroup).strength : ℚ) + 1),
          (⟨100, 1⟩ : LevelGroup).strength + 1⟩ : LevelGroup) :: [] ∧
    addToGroups ([] : List LevelGroup) (50 : ℚ) = ([] : List LevelGroup) ++ [⟨50, 1⟩] ∧
    groupLevels [⟨100, 10⟩, ⟨100.3, 15⟩, ⟨110, 20⟩] = [⟨100.15, 2⟩, ⟨110, 1⟩] ∧
    (findSupportResistanceLevels c7Candles 30).support.length ≤ 3 ∧
    (findSupportResistanceLevels c7Candles 30).resistance.length ≤ 3 := by
  have h := sr_finder_rules c7Candles ⟨1, 3⟩ [] [] [] ⟨100, 1⟩ (100.3 : ℚ) 50 30
    (by simp) (by norm_num [abs_of_pos]) (by simp)
  exact ⟨by simp, by norm_num [abs_of_pos], by simp, h.1, h.2.1, h.2.2.1,
    h.2.2.2.1, h.2.2.2.2.1, h.2.2.2.2.2.1, h.2.2.2.2.2.2⟩

theorem trueRange_nonneg {prev cur : Candle} (hcur : ValidCandle cur) :
    0 ≤ trueRange prev cur :=
  le_trans (by linarith [hcur.1]) (le_max_left _ _)

theorem plusDM_nonneg (prev cur : Candle) : 0 ≤ plusDMOf prev cur := by
  unfold plusDMOf
  dsimp only
  split
  · rename_i hcond; linarith [hcond.2]
  · exact le_refl 0

theorem minusDM_nonneg (prev cur : Candle) : 0 ≤ minusDMOf prev cur := by
  unfold minusDMOf
  dsimp only
  split
  · rename_i hcond; linarith [hcond.2]
  · exact le_refl 0

theorem plusDM_le_trueRange {prev cur : Candle} (hprev : ValidCandle prev)
    (hcur : ValidCandle cur) : plusDMOf prev cur ≤ trueRange prev cur := by
  unfold plusDMOf
  dsimp only
  split
  · have h1 : cur.high - prev.high ≤ cur.high - prev.close := by
      linarith [hprev.2.1]
    have h2 : cur.high - prev.close ≤ |cur.high - prev.close| := le_abs_self _
    have h3 : |cur.high - prev.close| ≤ trueRange prev cur :=
      le_trans (le_max_left _ _) (le_max_right _ _)
    linarith
  · exact trueRange_nonneg hcur

theorem minusDM_le_trueRange {prev cur : Candle} (hprev : ValidCandle prev)
    (hcur : ValidCandle cur) : minusDMOf prev cur ≤ trueRange prev cur := by
  unfold minusDMOf
  dsimp only
  split
  · have h1 : prev.low - cur.low ≤ prev.close - cur.low := by
      linarith [hprev.2.2]
    have h2 : prev.close - cur.low ≤ |cur.low - prev.close| := by
      rw [abs_sub_comm]
      exact le_abs_self _
    have h3 : |cur.low - prev.close| ≤ trueRange prev cur :=
      le_trans (le_max_right _ _) (le_max_right _ _)
    linarith
  · exact trueRange_nonneg hcur

theorem adxSmoothStep_inv {p : ℚ} (hp : 1 ≤ p) {s x : ℚ × ℚ × ℚ}
    (hs : DMInv s) (hx : DMInv x) : DMInv (adxSmoothStep p s x) := by
  obtain ⟨hs1, hs2, hs3, hs4⟩ := hs
  obtain ⟨hx1, hx2, hx3, hx4⟩ := hx
  have hp0 : 0 < p := by linarith
  have he : 0 ≤ 1 - 1/p := by
    have : 1/p ≤ 1 := (div_le_one hp0).mpr hp
    linarith
  have e1 : s.1 - s.1/p = s.1 * (1 - 1/p) := by ring
  have e2 : s.2.1 - s.2.1/p = s.2.1 * (1 - 1/p) := by ring
  have e3 : s.2.2 - s.2.2/p = s.2.2 * (1 - 1/p) := by ring
  have hb1 : 0 ≤ s.2.1 * (1 - 1/p) := mul_nonneg hs1 he
  have hb2 : s.2.1 * (1 - 1/p) ≤ s.1 * (1 - 1/p) := mul_le_mul_of_nonneg_right hs2 he
  have hb3 : 0 ≤ s.2.2 * (1 - 1/p) := mul_nonneg hs3 he
  have hb4 : s.2.2 * (1 - 1/p) ≤ s.1 * (1 - 1/p) := mul_le_mul_of_nonneg_right hs4 he
  refine ⟨?_, ?_, ?_, ?_⟩ <;> simp only [adxSmoothStep] <;> rw [e1] at * <;> nlinarith

theorem scanl_DMInv {p : ℚ} (hp : 1 ≤ p) :
    ∀ (steps : List (ℚ × ℚ × ℚ)) (init : ℚ × ℚ × ℚ), DMInv init →
      (∀ x ∈ steps, DMInv x) →
      ∀ s ∈ List.scanl (adxSmoothStep p) init steps, DMInv s := by
  intro steps
  induction steps with
  | nil =>
    intro init hinit _ s hs
    simp only [List.scanl] at hs
    rcases List.mem_singleton.mp hs with h
    exact h ▸ hinit
  | cons x xs ih =>
    intro init hinit hsteps s hs
    rw [List.scanl_cons] at hs
    rcases List.mem_append.mp hs with h | h
    · rcases List.mem_singleton.mp h with h
      exact h ▸ hinit
    · exact ih _ (adxSmoothStep_inv hp hinit (hsteps x (List.mem_cons_self _ _)))
        (fun y hy => hsteps y (List.mem_cons_of_mem _ hy)) s h

theorem di_bounds {s : ℚ × ℚ × ℚ} (hs : DMInv s) (hne : s.1 ≠ 0) :
    (0 ≤ s.2.1 / s.1 * 100 ∧ s.2.1 / s.1 * 100 ≤ 100) ∧
    (0 ≤ s.2.2 / s.1 * 100 ∧ s.2.2 / s.1 * 100 ≤ 100) := by
  obtain ⟨hs1, hs2, hs3, hs4⟩ := hs
  have hpos : 0 < s.1 := lt_of_le_of_ne (le_trans hs1 hs2) (Ne.symm hne)
  have h1 : s.2.1 / s.1 ≤ 1 := (div_le_one hpos).mpr hs2
  have h2 : s.2.2 / s.1 ≤ 1 := (div_le_one hpos).mpr hs4
  have h3 : 0 ≤ s.2.1 / s.1 := div_nonneg hs1 (le_of_lt hpos)
  have h4 : 0 ≤ s.2.2 / s.1 := div_nonneg hs3 (le_of_lt hpos)
  exact ⟨⟨by nlinarith, by nlinarith⟩, ⟨by nlinarith, by nlinarith⟩⟩

theorem dx_bounds {a b : ℚ} (ha : 0 ≤ a) (hb : 0 ≤ b) (hne : a + b ≠ 0) :
    0 ≤ |(a - b) / (a + b)| * 100 ∧ |(a - b) / (a + b)| * 100 ≤ 100 := by
  have hpos : 0 < a + b := lt_of_le_of_ne (by linarith) (Ne.symm hne)
  have habs : |a - b| ≤ a + b := abs_le.mpr ⟨by linarith, by linarith⟩
  have h1 : |(a - b) / (a + b)| = |a - b| / (a + b) := by
    rw [abs_div, abs_of_pos hpos]
  have h2 : |a - b| / (a + b) ≤ 1 := (div_le_one hpos).mpr habs
  have h3 : 0 ≤ |a - b| / (a + b) := div_nonneg (abs_nonneg _) (le_of_lt hpos)
  rw [h1]
  constructor <;> nlinarith

theorem adxDIDX_bounds {s : ℚ × ℚ × ℚ} (hs : DMInv s) :
    (∀ q, (adxDIDX s).1 = some q → 0 ≤ q ∧ q ≤ 100) ∧
    (∀ q, (adxDIDX s).2.1 = some q → 0 ≤ q ∧ q ≤ 100) ∧
    (∀ q, (adxDIDX s).2.2 = some q → 0 ≤ q ∧ q ≤ 100) := by
  unfold adxDIDX
  by_cases hz : s.1 = 0
  · rw [if_pos hz]
    exact ⟨fun q h => by simp at h, fun q h => by simp at h, fun q h => by simp at h⟩
  · rw [if_neg hz]
    dsimp only
    obtain ⟨⟨hp1, hp2⟩, hm1, hm2⟩ := di_bounds hs hz
    refine ⟨?_, ?_, ?_⟩
    · intro q hq
      rw [Option.some.injEq] at hq
      exact hq ▸ ⟨round2_nonneg hp1, round2_le_100 hp2⟩
    · intro q hq
      rw [Option.some.injEq] at hq
      exact hq ▸ ⟨round2_nonneg hm1, round2_le_100 hm2⟩
    · intro q hq
      split at hq
      · exact absurd hq (by simp)
      · rename_i hpm
        rw [Option.some.injEq] at hq
        obtain ⟨hd1, hd2⟩ := dx_bounds hp1 hm1 (by
          intro hsum
          exact hpm (by linarith))
        have harg : s.2.1 / s.1 * 100 - s.2.2 / s.1 * 100 =
            s.2.1 / s.1 * 100 - s.2.2 / s.1 * 100 := rfl
        exact hq ▸ ⟨round2_nonneg hd1, round2_le_100 hd2⟩

theorem jsSum_bounds :
    ∀ (l : List (Option ℚ)),
      (∀ x ∈ l, ∀ q, x = some q → 0 ≤ q ∧ q ≤ 100) →
      ∀ sq, jsSum l = some sq → 0 ≤ sq ∧ sq ≤ 100 * l.length := by
  intro l
  induction l with
  | nil =>
    intro _ sq hsq
    simp only [jsSum, Option.some.injEq] at hsq
    simp [← hsq]
  | cons x xs ih =>
    intro hb sq hsq
    cases x with
    | none => simp [jsSum] at hsq
    | some q =>
      simp only [jsSum] at hsq
      cases hxs : jsSum xs with
      | none => rw [hxs] at hsq; simp at hsq
      | some s0 =>
        rw [hxs] at hsq
        simp at hsq
        obtain ⟨h0, h1⟩ := ih (fun y hy => hb y (List.mem_cons_of_mem _ hy)) s0 hxs
        obtain ⟨h2, h3⟩ := hb (some q) (List.mem_cons_self _ _) q rfl
        constructor
        · rw [← hsq]; linarith
        · rw [← hsq]
          simp only [List.length_cons]
          push_cast
          linarith

theorem wstep_in_range {p a d : ℚ} (hp : 1 ≤ p) (ha : 0 ≤ a) (ha2 : a ≤ 100)
    (hd : 0 ≤ d) (hd2 : d ≤ 100) :
    0 ≤ (a * (p - 1) + d) / p ∧ (a * (p - 1) + d) / p ≤ 100 := by
  have hp0 : 0 < p := by linarith
  constructor
  · apply div_nonneg _ (le_of_lt hp0)
    nlinarith
  · rw [div_le_iff hp0]
    nlinarith

theorem adxAux_bounds {p : ℚ} (hp : 1 ≤ p) :
    ∀ (rest : List (Option ℚ)) (acc : Option ℚ),
      (∀ q, acc = some q → 0 ≤ q ∧ q ≤ 100) →
      (∀ x ∈ rest, ∀ q, x = some q → 0 ≤ q ∧ q ≤ 100) →
      ∀ o ∈ adxAux p acc rest, ∀ q, o = some q → 0 ≤ q ∧ q ≤ 100 := by
  intro rest
  induction rest with
  | nil =>
    intro acc _ _ o ho
    simp [adxAux] at ho
  | cons dx rest' ih =>
    intro acc hacc hrest o ho
    have hacc' : ∀ q, (match acc, dx with
        | some a, some d => some ((a * (p - 1) + d) / p)
        | _, _ => (none : Option ℚ)) = some q → 0 ≤ q ∧ q ≤ 100 := by
      intro q hq
      cases acc with
      | none => cases dx <;> simp at hq
      | some a =>
        cases dx with
        | none => simp at hq
        | some d =>
          simp only [Option.some.injEq] at hq
          obtain ⟨ha1, ha2⟩ := hacc a rfl
          obtain ⟨hd1, hd2⟩ := hrest (some d) (List.mem_cons_self _ _) d rfl
          exact hq ▸ wstep_in_range hp ha1 ha2 hd1 hd2
    simp only [adxAux, List.mem_cons] at ho
    rcases ho with h | h
    · intro q hq
      rw [h] at hq
      cases hm : (match acc, dx with
          | some a, some d => some ((a * (p - 1) + d) / p)
          | _, _ => (none : Option ℚ)) with
      | none => rw [hm] at hq; simp at hq
      | some a' =>
        rw [hm] at hq
        simp only [Option.map_some'] at hq
        rw [Option.some.injEq] at hq
        obtain ⟨h1, h2⟩ := hacc' a' hm
        exact hq ▸ ⟨round2_nonneg h1, round2_le_100 h2⟩
    · exact ih _ hacc' (fun x hx => hrest x (List.mem_cons_of_mem _ hx)) o h

theorem seed_cons_adxAux_bounds {p : ℚ} (hp : 1 ≤ p) (o : Option ℚ)
    (rest : List (Option ℚ))
    (ho : ∀ q, o = some q → 0 ≤ q ∧ q ≤ 100)
    (hrest : ∀ x ∈ rest, ∀ q, x = some q → 0 ≤ q ∧ q ≤ 100) :
    ∀ x ∈ (o.map round2 :: adxAux p o rest), ∀ q, x = some q → 0 ≤ q ∧ q ≤ 100 := by
  intro x hx
  rcases List.mem_cons.mp hx with h | h
  · intro q hq
    rw [h] at hq
    cases hm : o with
    | none => rw [hm] at hq; simp at hq
    | some a =>
      rw [hm] at hq
      simp only [Option.map_some'] at hq
      rw [Option.some.injEq] at hq
      obtain ⟨h1, h2⟩ := ho a hm
      exact hq ▸ ⟨round2_nonneg h1, round2_le_100 h2⟩
  · exact adxAux_bounds hp rest o ho hrest x h

theorem seed_div_bounds (period : ℕ) (hp : 1 ≤ period) (l : List (Option ℚ))
    (hl : ∀ x ∈ l, ∀ q, x = some q → 0 ≤ q ∧ q ≤ 100) :
    ∀ q, (jsSum (l.take period)).map (· / (period : ℚ)) = some q →
      0 ≤ q ∧ q ≤ 100 := by
  intro q hq
  cases hs : jsSum (l.take period) with
  | none => rw [hs] at hq; simp at hq
  | some sq =>
    rw [hs] at hq
    simp only [Option.map_some'] at hq
    rw [Option.some.injEq] at hq
    obtain ⟨h1, h2⟩ := jsSum_bounds (l.take period)
      (fun x hx => hl x (List.mem_of_mem_take hx)) sq hs
    have hper0 : (0 : ℚ) < (period : ℚ) := by exact_mod_cast by omega
    have hlen : ((l.take period).length : ℚ) ≤ (period : ℚ) := by
      have := List.length_take period l
      exact_mod_cast by omega
    constructor
    · rw [← hq]
      exact div_nonneg h1 (le_of_lt hper0)
    · rw [← hq, div_le_iff hper0]
      nlinarith

theorem padded_mem_ok (n : ℕ) (l : List (Option ℚ))
    (hl : ∀ x ∈ l, ∀ q, x = some q → 0 ≤ q ∧ q ≤ 100) :
    ∀ v ∈ List.replicate n JsVal.null ++ l.map toJsVal, adxSlotOk v := by
  intro v hv
  rcases List.mem_append.mp hv with h | h
  · exact Or.inl (List.eq_of_mem_replicate h)
  · rcases List.mem_map.mp h with ⟨o, ho, hvo⟩
    cases o with
    | none => exact Or.inr (Or.inl hvo.symm)
    | some q =>
      refine Or.inr (Or.inr ⟨q, hvo.symm, ?_⟩)
      exact hl (some q) ho q rfl

theorem slice_padded_mem_ok (n : ℕ) (e : ℤ) (l : List (Option ℚ))
    (hl : ∀ x ∈ l, ∀ q, x = some q → 0 ≤ q ∧ q ≤ 100) :
    ∀ v ∈ jsSliceTo (List.replicate n JsVal.null) e ++ l.map toJsVal, adxSlotOk v := by
  intro v hv
  rcases List.mem_append.mp hv with h | h
  · unfold jsSliceTo at h
    split at h <;>
      exact Or.inl (List.eq_of_mem_replicate (List.mem_of_mem_take h))
  · rcases List.mem_map.mp h with ⟨o, ho, hvo⟩
    cases o with
    | none => exact Or.inr (Or.inl hvo.symm)
    | some q =>
      refine Or.inr (Or.inr ⟨q, hvo.symm, ?_⟩)
      exact hl (some q) ho q rfl

theorem zip_pair_valid {cs : List Candle} (hv : ∀ c ∈ cs, ValidCandle c)
    {pc : Candle × Candle} (hpc : pc ∈ cs.zip cs.tail) :
    ValidCandle pc.1 ∧ ValidCandle pc.2 := by
  obtain ⟨a, b⟩ := pc
  obtain ⟨h1, h2⟩ := List.of_mem_zip hpc
  exact ⟨hv a h1, hv b ((List.tail_sublist cs).subset h2)⟩

theorem init_DMInv (cs : List Candle) (period : ℕ)
    (hv : ∀ c ∈ cs, ValidCandle c) :
    DMInv ((((cs.zip cs.tail).map fun pc => trueRange pc.1 pc.2).take period).sum,
      (((cs.zip cs.tail).map fun pc => plusDMOf pc.1 pc.2).take period).sum,
      (((cs.zip cs.tail).map fun pc => minusDMOf pc.1 pc.2).take period).sum) := by
  rw [← List.map_take, ← List.map_take, ← List.map_take]
  refine ⟨?_, ?_, ?_, ?_⟩
  · apply List.sum_nonneg
    intro x hx
    rcases List.mem_map.mp hx with ⟨pc, _, hfc⟩
    exact hfc ▸ plusDM_nonneg pc.1 pc.2
  · apply List.sum_le_sum
    intro pc hpc
    obtain ⟨h1, h2⟩ := zip_pair_valid hv (List.mem_of_mem_take hpc)
    exact plusDM_le_trueRange h1 h2
  · apply List.sum_nonneg
    intro x hx
    rcases List.mem_map.mp hx with ⟨pc, _, hfc⟩
    exact hfc ▸ minusDM_nonneg pc.1 pc.2
  · apply List.sum_le_sum
    intro pc hpc
    obtain ⟨h1, h2⟩ := zip_pair_valid hv (List.mem_of_mem_take hpc)
    exact minusDM_le_trueRange h1 h2

theorem steps_DMInv (cs : List Candle) (period : ℕ)
    (hv : ∀ c ∈ cs, ValidCandle c) :
    ∀ x ∈ ((cs.zip cs.tail).drop period).map
      (fun pc => (trueRange pc.1 pc.2, plusDMOf pc.1 pc.2, minusDMOf pc.1 pc.2)),
      DMInv x := by
  intro x hx
  rcases List.mem_map.mp hx with ⟨pc, hpc, hfc⟩
  obtain ⟨h1, h2⟩ := zip_pair_valid hv (List.mem_of_mem_drop hpc)
  exact hfc ▸ ⟨plusDM_nonneg _ _, plusDM_le_trueRange h1 h2,
    minusDM_nonneg _ _, minusDM_le_trueRange h1 h2⟩

theorem dis_bounds {p : ℚ} (hp1 : 1 ≤ p) (init : ℚ × ℚ × ℚ)
    (steps : List (ℚ × ℚ × ℚ)) (hinit : DMInv init)
    (hsteps : ∀ x ∈ steps, DMInv x) :
    (∀ x ∈ ((List.scanl (adxSmoothStep p) init steps).tail.map adxDIDX).map
        (fun t => t.1), ∀ q, x = some q → 0 ≤ q ∧ q ≤ 100) ∧
    (∀ x ∈ ((List.scanl (adxSmoothStep p) init steps).tail.map adxDIDX).map
        (fun t => t.2.1), ∀ q, x = some q → 0 ≤ q ∧ q ≤ 100) ∧
    (∀ x ∈ ((List.scanl (adxSmoothStep p) init steps).tail.map adxDIDX).map
        (fun t => t.2.2), ∀ q, x = some q → 0 ≤ q ∧ q ≤ 100) := by
  have hstate : ∀ s ∈ (List.scanl (adxSmoothStep p) init steps).tail, DMInv s := by
    intro s hs
    exact scanl_DMInv hp1 steps init hinit hsteps s
      ((List.tail_sublist _).subset hs)
  refine ⟨?_, ?_, ?_⟩ <;>
    (intro x hx
     rcases List.mem_map.mp hx with ⟨t, ht, hft⟩
     rcases List.mem_map.mp ht with ⟨s, hs, hfs⟩
     have hb := adxDIDX_bounds (hstate s hs))
  · exact hft ▸ hfs ▸ hb.1
  · exact hft ▸ hfs ▸ hb.2.1
  · exact hft ▸ hfs ▸ hb.2.2

/-- C6 (amended): for every valid OHLC candle sequence (`high ≥ low`,
`high ≥ close`, `low ≤ close` on every candle) and period ≥ 1, every slot
of the returned `adx`, `plusDI` and `minusDI` sequences is either the
`null` alignment padding, NaN (produced by the `0/0` divisions when the
smoothed true range — or the DI sum — is zero, as happens on fully
degenerate series), or a number within `[0, 100]`. -/
theorem adx_outputs_bounded (candles : List Candle) (period : ℕ)
    (hp : 1 ≤ period) (hv : ∀ c ∈ candles, ValidCandle c) :
    (∀ v ∈ (calculateADX candles period).adx, adxSlotOk v) ∧
    (∀ v ∈ (calculateADX candles period).plusDI, adxSlotOk v) ∧
    (∀ v ∈ (calculateADX candles period).minusDI, adxSlotOk v) := by
  have hp1 : (1 : ℚ) ≤ (period : ℚ) := by exact_mod_cast hp
  rcases candles with _ | ⟨c0, rest⟩
  · refine ⟨?_, ?_, ?_⟩ <;> (intro v hv0; simp [calculateADX] at hv0)
  · by_cases hguard : (c0 :: rest).length < period * 2 ∨ c0.high = 0
    · refine ⟨?_, ?_, ?_⟩ <;>
        (intro v hv0
         simp only [calculateADX, if_pos hguard] at hv0
         simp at hv0)
    · have hinit := init_DMInv (c0 :: rest) period hv
      have hsteps := steps_DMInv (c0 :: rest) period hv
      have hdis := dis_bounds hp1 _ _ hinit hsteps
      refine ⟨?_, ?_, ?_⟩ <;>
        (intro v hv0
         simp only [calculateADX, if_neg hguard] at hv0)
      · refine padded_mem_ok _ _ ?_ v hv0
        refine seed_cons_adxAux_bounds hp1 _ _ ?_ ?_
        · exact seed_div_bounds period hp _ hdis.2.2
        · exact fun x hx => hdis.2.2 x (List.mem_of_mem_drop hx)
      · exact slice_padded_mem_ok _ _ _ hdis.1 v hv0
      · exact slice_padded_mem_ok _ _ _ hdis.2.1 v hv0

/-- C6 counterexample: four identical valid candles (positive true range,
zero directional movement) make `plusDI + minusDI = 0`, so the DX division
is `0/0` = NaN and the returned `adx` slots hold NaN — not a number in
`[0, 100]` as claimed. -/
theorem adx_nan_counterexample :
    (∀ c ∈ c6Candles, ValidCandle c) ∧
    (calculateADX c6Candles 1).adx = [JsVal.null, JsVal.null, JsVal.nan, JsVal.nan] ∧
    ¬ (∀ v ∈ (calculateADX c6Candles 1).adx, adxClaimSlot v) := by
  have hval : ∀ c ∈ c6Candles, ValidCandle c := by decide
  have heq : (calculateADX c6Candles 1).adx =
      [JsVal.null, JsVal.null, JsVal.nan, JsVal.nan] := by
    norm_num [calculateADX, c6Candles, trueRange, plusDMOf, minusDMOf, adxSmoothStep,
      adxDIDX, jsSum, adxAux, jsSliceTo, toJsVal, List.scanl, List.replicate, max_def,
      abs_of_nonneg, abs_of_nonpos]
  refine ⟨hval, heq, ?_⟩
  intro hall
  have hn := hall JsVal.nan (by rw [heq]; simp)
  rcases hn with h | ⟨q, hq, _⟩
  · exact JsVal.noConfusion h
  · exact JsVal.noConfusion hq

/-- C6 witness: the amended bound theorem applied to the same four valid
candles with period 1. -/
theorem adx_outputs_bounded_witness :
    1 ≤ 1 ∧ (∀ c ∈ c6Candles, ValidCandle c) ∧
    ((∀ v ∈ (calculateADX c6Candles 1).adx, adxSlotOk v) ∧
     (∀ v ∈ (calculateADX c6Candles 1).plusDI, adxSlotOk v) ∧
     (∀ v ∈ (calculateADX c6Candles 1).minusDI, adxSlotOk v)) :=
  ⟨by decide, by decide, adx_outputs_bounded c6Candles 1 (by decide) (by decide)⟩
